import Mathlib

/-!
Verification of the BlakePapers signature-position store.

The embedding models the TypeScript sources
`src/server/config/signaturePositions.ts` and
`src/server/routes/adminFormManagement.ts`.  Configuration text is
modelled as `List Char`; JavaScript numbers that arise in this code are
exact integers (x, y, width, height) and exact decimal fractions
(opacity), so they are modelled as `Int` and `ℚ`.  A JavaScript value
that can be `undefined` or `NaN` is modelled as an `Option`.
-/

set_option maxRecDepth 200000

namespace BlakePapers

abbrev Text := List Char

/-- Characters matched by the JavaScript regex class `\s` (ASCII part,
which is all that occurs in this configuration text). -/
def isJSSpace (c : Char) : Bool :=
  c = ' ' || c = '\t' || c = '\n' || c = '\r' || c = '\x0c' || c = '\x0b'

def isDigitCh (c : Char) : Bool := '0' ≤ c && c ≤ '9'

/-- The TypeScript interface `SignaturePosition` from
`signaturePositions.ts`: four numeric fields plus an optional opacity. -/
structure SignaturePosition where
  x : Int
  y : Int
  width : Int
  height : Int
  opacity : Option ℚ
deriving DecidableEq

/-- A position as produced by the regex-parsing path of
`getFreshSignaturePosition`: every field comes from `parseInt` /
`parseFloat` and can therefore be `NaN`, modelled as `none`. -/
structure JSPos where
  x : Option Int
  y : Option Int
  width : Option Int
  height : Option Int
  opacity : Option ℚ
deriving DecidableEq

/-- Reading a statically-typed `SignaturePosition` object through the
same result type as the parsing path. -/
def SignaturePosition.toJS (p : SignaturePosition) : JSPos :=
  ⟨some p.x, some p.y, some p.width, some p.height, p.opacity⟩

/-- JavaScript `a || b` on an optional number `a`: `undefined` and `0`
are falsy, every other number is truthy. -/
def jsOr (o : Option ℚ) (d : ℚ) : ℚ :=
  match o with
  | none => d
  | some v => if v = 0 then d else v

/-- The in-memory catalogue object `signaturePositions` is a JavaScript
object literal: an ordered association of keys to positions. -/
abbrev Catalogue := List (Text × SignaturePosition)

def assocLookup {α : Type} : List (Text × α) → Text → Option α
  | [], _ => none
  | (k', v) :: t, k => if k' = k then some v else assocLookup t k

/-- The initial value of the `signaturePositions` object literal in
`signaturePositions.ts`. -/
def signaturePositions : Catalogue :=
  [ ("absa-form".data, ⟨78, 376, 200, 60, some 1⟩),
    ("clearance-certificate-form".data, ⟨104, 184, 200, 60, some (mkRat 7 10)⟩),
    ("sahl-certificate-form".data, ⟨323, 177, 200, 60, some 1⟩),
    ("discovery-form".data, ⟨172, 74, 200, 60, some 1⟩),
    ("liability-form".data, ⟨360, 580, 200, 60, some 1⟩),
    ("noncompliance-form".data, ⟨300, 700, 200, 60, some (mkRat 7 10)⟩),
    ("material-list-form".data, ⟨320, 750, 200, 60, some (mkRat 7 10)⟩),
    ("default".data, ⟨168, 722, 200, 30, some (mkRat 7 10)⟩) ]

/-- `getSignaturePosition` from `signaturePositions.ts`:
`signaturePositions[formType] || signaturePositions["default"]`.
An object is never falsy, so the fallback fires exactly when the key is
absent; the result is `undefined` (`none`) only if `"default"` is also
absent. -/
def getSignaturePosition (cat : Catalogue) (formType : Text) : Option SignaturePosition :=
  match assocLookup cat formType with
  | some v => some v
  | none => assocLookup cat "default".data

/-- `updateSignaturePosition` from `signaturePositions.ts`:
`signaturePositions[formType] = { ...position, opacity: position.opacity || 0.7 }`.
JavaScript object assignment keeps the slot of an existing key and
appends a new key at the end. -/
def updateSignaturePosition : Catalogue → Text → SignaturePosition → Catalogue
  | [], k, p => [(k, { p with opacity := some (jsOr p.opacity (mkRat 7 10)) })]
  | (k', v) :: t, k, p =>
      if k' = k then (k', { p with opacity := some (jsOr p.opacity (mkRat 7 10)) }) :: t
      else (k', v) :: updateSignaturePosition t k p

/-- Replacement of the value stored under an (existing) key, keeping
everything else; used to STATE what the text-level writer does to a
rendered catalogue. -/
def setEntry : Catalogue → Text → SignaturePosition → Catalogue
  | [], _, _ => []
  | (k', v) :: t, k, p =>
      if k' = k then (k', p) :: t else (k', v) :: setEntry t k p

/-- The `pdfToFormMap` alias table from `handleSavePDFSignaturePosition`. -/
def pdfToFormMap : List (Text × Text) :=
  [ ("ABSACertificate.pdf".data, "absa-form".data),
    ("BBPClearanceCertificate.pdf".data, "clearance-certificate-form".data),
    ("sahlld.pdf".data, "sahl-certificate-form".data),
    ("desco.pdf".data, "discovery-form".data),
    ("liabWave.pdf".data, "liability-form".data),
    ("Noncompliance.pdf".data, "noncompliance-form".data),
    ("ML.pdf".data, "material-list-form".data),
    ("form-absa-certificate".data, "absa-form".data),
    ("form-clearance-certificate".data, "clearance-certificate-form".data),
    ("form-sahl-certificate".data, "sahl-certificate-form".data),
    ("form-discovery-geyser".data, "discovery-form".data),
    ("form-liability-certificate".data, "liability-form".data) ]

/-- Key resolution in `handleSavePDFSignaturePosition`: a truthy
caller-supplied `formType` wins, otherwise
`pdfToFormMap[pdfName] || pdfToFormMap[formType] || "default"`.
In the fallback branch `formType` is falsy, so the middle lookup is
always `undefined` and is dropped from the model. -/
def resolveFormType (pdfName : Text) (formType : Option Text) : Text :=
  match formType with
  | some f => f
  | none =>
      match assocLookup pdfToFormMap pdfName with
      | some k => k
      | none => "default".data

/-- The text `"key":` that opens the block pattern
`` `"${formType}":\s*{[^}]*}` `` built by `getFreshSignaturePosition` and
`updateSignaturePositionInSourceCode`.  The key is interpolated into the
regex UNESCAPED, so a key character that is a regex metacharacter (such
as `.`) matches more than itself.  `quotedColon` and the matchers below
model the pattern as a literal string match, which is exact for keys
made of word characters and hyphens (`LiteralKey` below) — every key the
repository uses.  For keys with metacharacters the interpolation is NOT
literal; `matchAtRegex`/`updateSourceCodeRegex` below model that
behaviour, and `matchAtRegex_eq` proves the two models agree on
`LiteralKey` keys. -/
def quotedColon (k : Text) : Text := '"' :: k ++ ['"', ':']

/-- The text `"key"` used by the `fileContent.includes` existence check
in `updateSignaturePositionInSourceCode` (no trailing colon there). -/
def quotedKey (k : Text) : Text := '"' :: k ++ ['"']

/-- The part of the block regex after the literal `"key":` — greedy
whitespace `\s*`, then `{`, then `[^}]*` (which necessarily stops at the
first `}`), then `}`.  Anchored at the start of `s`; returns the matched
span and the remaining text. -/
def matchTail (s : Text) : Option (Text × Text) :=
  match s.dropWhile isJSSpace with
  | '\x7b' :: r2 =>
      match r2.dropWhile (fun c => c != '\x7d') with
      | '\x7d' :: rest =>
          some (s.takeWhile isJSSpace ++
            '\x7b' :: (r2.takeWhile (fun c => c != '\x7d') ++ ['\x7d']), rest)
      | _ => none
  | _ => none

/-- One attempt of the block regex `"key":\s*{[^}]*}` anchored at the
start of `s`, with the interpolated key treated as a literal string —
exact for `LiteralKey` keys (see `quotedColon` and `matchAtRegex_eq`). -/
def matchAt (k : Text) (s : Text) : Option (Text × Text) :=
  if (quotedColon k).isPrefixOf s then
    (matchTail (s.drop (quotedColon k).length)).map
      (fun x => (quotedColon k ++ x.1, x.2))
  else none

/-- Leftmost match of the block regex: `fileContent.match(...)[0]`.
Returns the text before the match, the matched span, and the rest. -/
def findBlock (k : Text) : Text → Option (Text × Text × Text)
  | [] =>
      match matchAt k [] with
      | some (m, rest) => some ([], m, rest)
      | none => none
  | c :: t =>
      match matchAt k (c :: t) with
      | some (m, rest) => some ([], m, rest)
      | none =>
          (findBlock k t).map (fun x => (c :: x.1, x.2.1, x.2.2))

/-- The matched span for a key, if any: what both the reading and the
writing side of the store agree is "the block of that key". -/
def blockOf (k text : Text) : Option Text :=
  (findBlock k text).map (fun x => x.2.1)

/-- Fuel-driven worker for `replaceBlocks`; each successful match
strictly shortens the text, so fuel `s.length + 1` never runs out
(`replaceBlocks_eq` below is the defining equation). -/
def replaceBlocksAux (k nb : Text) : Nat → Text → Text
  | 0, s => s
  | fuel + 1, s =>
      match findBlock k s with
      | none => s
      | some (p, _, r) => p ++ nb ++ replaceBlocksAux k nb fuel r

/-- JavaScript `fileContent.replace(regex, newText)` with the `g` flag:
replace every non-overlapping match, scanning left to right; the
replacement text is not rescanned.  The matcher is the literal-key model
(`matchAt`) and the replacement is inserted verbatim — both exact for
`LiteralKey` keys, which contain no regex metacharacter and no `$` (so
no replacement-pattern expansion); `replaceBlocksRegex` below models
metacharacter keys. -/
def replaceBlocks (k nb : Text) (s : Text) : Text :=
  replaceBlocksAux k nb (s.length + 1) s

/-- JavaScript `s.includes(pat)`. -/
def includesSub (pat : Text) : Text → Bool
  | [] => pat.isPrefixOf []
  | c :: t => pat.isPrefixOf (c :: t) || includesSub pat t

/-- JavaScript `s.lastIndexOf(pat)`: start index of the rightmost
occurrence, `none` for `-1`. -/
def lastIdxSub (pat : Text) : Text → Option Nat
  | [] => if pat.isPrefixOf [] then some 0 else none
  | c :: t =>
      match lastIdxSub pat t with
      | some j => some (j + 1)
      | none => if pat.isPrefixOf (c :: t) then some 0 else none

/-- JavaScript `s.trim()` (restricted to the ASCII whitespace actually
present in this configuration text). -/
def trimJS (s : Text) : Text :=
  ((s.dropWhile isJSSpace).reverse.dropWhile isJSSpace).reverse

/-- JavaScript `s.endsWith(c)` for a single-character suffix. -/
def endsWithCh (s : Text) (c : Char) : Bool :=
  match s.getLast? with
  | some c' => c' = c
  | none => false

/-- Fuel-driven worker for `renderNat` (`renderNat_eq` below is the
defining equation; fuel `n + 1` never runs out since `n / 10 < n`). -/
def renderNatAux : Nat → Nat → Text
  | 0, _ => []
  | fuel + 1, n =>
      if n < 10 then [Char.ofNat (48 + n)]
      else renderNatAux fuel (n / 10) ++ [Char.ofNat (48 + n % 10)]

/-- Decimal rendering of a natural number, as JavaScript template
interpolation `${n}` produces for a non-negative integer. -/
def renderNat (n : Nat) : Text := renderNatAux (n + 1) n

/-- JavaScript `${i}` for an integer value. -/
def renderInt (i : Int) : Text :=
  if i < 0 then '-' :: renderNat i.natAbs else renderNat i.toNat

/-- JavaScript `${q}` for a number whose exact value is the rational
`q`.  Every opacity that this code ever renders is a decimal fraction
(`0.7`, or a value an operator typed in decimal), for which JavaScript
prints the shortest decimal expansion — the integer part, a point, and
the fraction digits without trailing zeros.  The final catch-all branch
is unreachable for such values and is a total-function placeholder. -/
def renderRat (q : ℚ) : Text :=
  let base : Text := if q.num < 0 then ['-'] else []
  let n := q.num.natAbs
  let d := q.den
  if d = 1 then base ++ renderNat n
  else
    match (List.range 20).find? (fun m => 10 ^ (m + 1) % d == 0) with
    | some m =>
        let p := 10 ^ (m + 1)
        let scaled := n * (p / d)
        let frac := renderNat (scaled % p)
        base ++ renderNat (scaled / p) ++
          '.' :: (List.replicate ((m + 1) - frac.length) '0' ++ frac)
    | none => base ++ renderNat n ++ '.' :: renderNat d

/-- The field lines of a rendered block: everything strictly between
the opening `{` and the closing `}` of the `newPositionString` template
literal in `updateSignaturePositionInSourceCode`. -/
def npsFields (position : SignaturePosition) : Text :=
  "\n    x: ".data ++ renderInt position.x
    ++ ",\n    y: ".data ++ renderInt position.y
    ++ ",\n    width: ".data ++ renderInt position.width
    ++ ",\n    height: ".data ++ renderInt position.height
    ++ ",\n    opacity: ".data ++ renderRat (jsOr position.opacity (mkRat 7 10))
    ++ "\n  ".data

/-- The template literal `newPositionString` built in
`updateSignaturePositionInSourceCode`:
`"${formType}": {` then one line per field at four-space indent, with
`opacity: ${position.opacity || 0.7}`, closed by a two-space-indented
brace. -/
def newPositionString (formType : Text) (position : SignaturePosition) : Text :=
  '"' :: formType ++ '"' :: ':' :: ' ' :: '\x7b' :: (npsFields position ++ ['\x7d'])

/-- `updateSignaturePositionInSourceCode` from `adminFormManagement.ts`
(pure text transform; reading and writing the file are the
surrounding I/O).  If the file contains `"formType"` anywhere, every
match of the block regex is replaced; otherwise the rendered block is
inserted before the last occurrence of `};` in the file, preceded by a
comma when the trimmed preceding text does not already end in `{` or
`,`.  If `};` does not occur at all, the text is left unchanged. -/
def updateSignaturePositionInSourceCode
    (formType : Text) (position : SignaturePosition) (fileContent : Text) : Text :=
  let nps := newPositionString formType position
  if includesSub (quotedKey formType) fileContent then
    replaceBlocks formType nps fileContent
  else
    match lastIdxSub "\x7d;".data fileContent with
    | some insertPoint =>
        let beforeClosing := fileContent.take insertPoint
        let afterClosing := fileContent.drop insertPoint
        let t := trimJS beforeClosing
        let needsComma := !(endsWithCh t '\x7b') && !(endsWithCh t ',')
        beforeClosing ++ (if needsComma then [','] else []) ++
          "\n  ".data ++ nps ++ ['\n'] ++ afterClosing
    | none => fileContent

/-!
The key is interpolated into the block regex UNESCAPED, so a key
containing a regex metacharacter does not match literally: in
`` `"a.b":\s*{[^}]*}` `` the `.` matches any character but a line
terminator, so the pattern also matches `"axb": {...}`.  The
definitions below repeat the matcher and the writer with that regex
semantics for the interpolated key characters, covering key characters
that are either `.` or self-matching (word characters, hyphen — no
other metacharacter, which no theorem here needs); `matchAtRegex_eq`
and its corollaries prove the regex model and the literal model agree
on `LiteralKey` keys.
-/

/-- One interpolated key character as a regex atom: `.` matches any
character except a line terminator, any self-matching character
matches itself. -/
def regexCharMatches (pc c : Char) : Bool :=
  if pc == '.' then !(c == '\n') else pc == c

/-- Match the interpolated pattern characters against the start of the
input; returns the consumed input span and the rest. -/
def matchKeyChars : Text → Text → Option (Text × Text)
  | [], s => some ([], s)
  | _ :: _, [] => none
  | pc :: ps, c :: s =>
      if regexCharMatches pc c then
        (matchKeyChars ps s).map (fun x => (c :: x.1, x.2))
      else none

/-- `matchAt` with the unescaped-interpolation regex semantics for the
key characters. -/
def matchAtRegex (k : Text) (s : Text) : Option (Text × Text) :=
  match matchKeyChars (quotedColon k) s with
  | some (m, r) => (matchTail r).map (fun x => (m ++ x.1, x.2))
  | none => none

/-- `findBlock` with the regex-semantics matcher. -/
def findBlockRegex (k : Text) : Text → Option (Text × Text × Text)
  | [] =>
      match matchAtRegex k [] with
      | some (m, rest) => some ([], m, rest)
      | none => none
  | c :: t =>
      match matchAtRegex k (c :: t) with
      | some (m, rest) => some ([], m, rest)
      | none =>
          (findBlockRegex k t).map (fun x => (c :: x.1, x.2.1, x.2.2))

/-- `blockOf` with the regex-semantics matcher. -/
def blockOfRegex (k text : Text) : Option Text :=
  (findBlockRegex k text).map (fun x => x.2.1)

/-- `replaceBlocksAux` with the regex-semantics matcher. -/
def replaceBlocksAuxRegex (k nb : Text) : Nat → Text → Text
  | 0, s => s
  | fuel + 1, s =>
      match findBlockRegex k s with
      | none => s
      | some (p, _, r) => p ++ nb ++ replaceBlocksAuxRegex k nb fuel r

/-- `replaceBlocks` with the regex-semantics matcher. -/
def replaceBlocksRegex (k nb : Text) (s : Text) : Text :=
  replaceBlocksAuxRegex k nb (s.length + 1) s

/-- `updateSignaturePositionInSourceCode` with the regex-semantics
matcher in the replace branch (the `includes` existence check and the
whole insert branch are plain string operations in the source and stay
literal). -/
def updateSourceCodeRegex
    (formType : Text) (position : SignaturePosition) (fileContent : Text) : Text :=
  let nps := newPositionString formType position
  if includesSub (quotedKey formType) fileContent then
    replaceBlocksRegex formType nps fileContent
  else
    match lastIdxSub "\x7d;".data fileContent with
    | some insertPoint =>
        let beforeClosing := fileContent.take insertPoint
        let afterClosing := fileContent.drop insertPoint
        let t := trimJS beforeClosing
        let needsComma := !(endsWithCh t '\x7b') && !(endsWithCh t ',')
        beforeClosing ++ (if needsComma then [','] else []) ++
          "\n  ".data ++ nps ++ ['\n'] ++ afterClosing
    | none => fileContent

/-!
Field extraction in `getFreshSignaturePosition` uses regex LITERALS
such as `/x:\\s*(\\d+)/`.  Inside a regex literal `\\` is an escape for
one literal backslash character, so this pattern matches `x:` followed
by a backslash, then a run of literal `s` characters, then a backslash,
then a run of literal `d` characters — not `x:` followed by whitespace
and digits as the surrounding code clearly intends (the block regex one
line above builds the same `\\s` inside a template string, where it
correctly denotes `\s`).  The models below implement what the literals
actually match.
-/

/-- Tail of the buggy int-field pattern after `name:` — a backslash,
then `s*` (literal letter), then the capture group `(\\d+)`: a
backslash followed by one or more literal `d` characters.  Returns the
captured text. -/
def buggyIntTail (s : Text) : Option Text :=
  match s with
  | '\\' :: r =>
      match r.dropWhile (fun c => c == 's') with
      | '\\' :: r2 =>
          let ds := r2.takeWhile (fun c => c == 'd')
          if ds.isEmpty then none else some ('\\' :: ds)
      | _ => none
  | _ => none

/-- Leftmost match of the buggy field regex `/name:\\s*(\\d+)/` over
`s`; `some cap` is `match[1]`. -/
def buggyFieldCapture (name : Text) : Text → Option Text
  | [] => none
  | c :: t =>
      if (name ++ [':']).isPrefixOf (c :: t) then
        match buggyIntTail ((c :: t).drop (name ++ [':']).length) with
        | some cap => some cap
        | none => buggyFieldCapture name t
      else buggyFieldCapture name t

/-- Tail of the buggy opacity pattern `/opacity:\\s*([\\d.]+)/` after
`opacity:` — a backslash, then literal `s*`, then one or more
characters from the class consisting of backslash, the letter `d`, and
the dot. -/
def buggyOpacityTail (s : Text) : Option Text :=
  match s with
  | '\\' :: r =>
      let cls := (r.dropWhile (fun c => c == 's')).takeWhile
        (fun c => c == '\\' || c == 'd' || c == '.')
      if cls.isEmpty then none else some cls
  | _ => none

/-- Leftmost match of the buggy opacity regex over `s`. -/
def buggyOpacityCapture : Text → Option Text
  | [] => none
  | c :: t =>
      if "opacity:".data.isPrefixOf (c :: t) then
        match buggyOpacityTail ((c :: t).drop "opacity:".data.length) with
        | some cap => some cap
        | none => buggyOpacityCapture t
      else buggyOpacityCapture t

def digitsVal (ds : Text) : Nat :=
  ds.foldl (fun a c => a * 10 + (c.toNat - 48)) 0

/-- JavaScript `parseInt(s)` restricted to decimal input without
exponent notation (all that ever reaches it here): skip whitespace,
optional sign, then a non-empty run of digits; `NaN` is `none`. -/
def parseIntJS (s : Text) : Option Int :=
  let core := fun (u : Text) (neg : Bool) =>
    let ds := u.takeWhile isDigitCh
    if ds.isEmpty then (none : Option Int)
    else some (if neg then -(digitsVal ds : Int) else (digitsVal ds : Int))
  match s.dropWhile isJSSpace with
  | '-' :: r => core r true
  | '+' :: r => core r false
  | r => core r false

/-- JavaScript `parseFloat(s)` restricted to plain decimal notation
(all that ever reaches it here): optional sign, digits, optionally a
point and more digits; at least one digit overall, else `NaN`. -/
def parseFloatJS (s : Text) : Option ℚ :=
  let core := fun (u : Text) (neg : Bool) =>
    let ip := u.takeWhile isDigitCh
    let rest := u.drop ip.length
    let fp : Text :=
      match rest with
      | '.' :: r => r.takeWhile isDigitCh
      | _ => []
    if ip.isEmpty && fp.isEmpty then (none : Option ℚ)
    else
      let num : Int := (digitsVal ip * 10 ^ fp.length + digitsVal fp : Nat)
      some (mkRat (if neg then -num else num) (10 ^ fp.length))
  match s.dropWhile isJSSpace with
  | '-' :: r => core r true
  | '+' :: r => core r false
  | r => core r false

/-- `getFreshSignaturePosition` from `adminFormManagement.ts` (pure
function of the file text it reads and the in-memory catalogue its
fallback import sees).  The block regex is built from a template string
and works; the four field regexes and the opacity regex are the buggy
literals above.  If the block is found and all four field regexes
match, the position is built from `parseInt`/`parseFloat` of the
captures (opacity `0.7` when the opacity regex does not match);
otherwise — including when the block was found but a field regex did
not match — it falls back to `getSignaturePosition` on the imported
in-memory catalogue. -/
def getFreshSignaturePosition
    (fileContent : Text) (cat : Catalogue) (formType : Text) : Option JSPos :=
  match findBlock formType fileContent with
  | some (_, positionText, _) =>
      match buggyFieldCapture "x".data positionText,
            buggyFieldCapture "y".data positionText,
            buggyFieldCapture "width".data positionText,
            buggyFieldCapture "height".data positionText with
      | some cx, some cy, some cw, some ch =>
          some ⟨parseIntJS cx, parseIntJS cy, parseIntJS cw, parseIntJS ch,
                match buggyOpacityCapture positionText with
                | some co => parseFloatJS co
                | none => some (mkRat 7 10)⟩
      | _, _, _, _ => (getSignaturePosition cat formType).map SignaturePosition.toJS
  | none => (getSignaturePosition cat formType).map SignaturePosition.toJS

/-!
Canonical configuration texts.  `signaturePositions.ts` declares the
catalogue as an object literal whose entries are exactly in the format
that `newPositionString` renders (two-space key indent, four-space
field indent), closed by `};`.  `renderCatalogue` produces such a text;
`initialConfigText` is the shipped `signaturePositions.ts` file itself,
with the commentary and code that surround the catalogue literal.
-/

def catHeader : Text := "export const signaturePositions = \x7b\n  ".data

def catFooter : Text := "\n\x7d;\n".data

/-- The entry list of a catalogue object literal, separated by
`,\n  `. -/
def catBody : List (Text × SignaturePosition) → Text
  | [] => []
  | (k, p) :: rest =>
      newPositionString k p ++
        (match rest with
         | [] => []
         | _ :: _ => ",\n  ".data ++ catBody rest)

def renderCatalogue (entries : List (Text × SignaturePosition)) : Text :=
  catHeader ++ catBody entries ++ catFooter

/-- The part of `signaturePositions.ts` before the catalogue literal:
file comments and the two interface declarations. -/
def configFilePrefix : Text :=
  ("// PDF signature positions configuration\n" ++
   "// This file is automatically updated when admins change signature positions\n\n" ++
   "export interface SignaturePosition \x7b\n  x: number;\n  y: number;\n" ++
   "  width: number;\n  height: number;\n  opacity?: number;\n\x7d\n\n" ++
   "export interface PDFSignatureConfig \x7b\n  [pdfType: string]: SignaturePosition;\n\x7d\n\n" ++
   "// Default signature positions for each PDF type\n").data

/-- The part of `signaturePositions.ts` after the catalogue literal:
the two accessor functions.  Note the object literal inside
`updateSignaturePosition` ends with `};` — the last occurrence of `};`
in the whole file is THERE, not at the catalogue's closing brace. -/
def configFileSuffix : Text :=
  ("\n// Function to get signature position for a specific form type\n" ++
   "export function getSignaturePosition(formType: string): SignaturePosition \x7b\n" ++
   "  return signaturePositions[formType] || signaturePositions[\"default\"];\n\x7d\n\n" ++
   "// Function to update signature position (this will be called by admin API)\n" ++
   "export function updateSignaturePosition(formType: string, position: SignaturePosition): void \x7b\n" ++
   "  signaturePositions[formType] = \x7b\n    ...position,\n" ++
   "    opacity: position.opacity || 0.7 // Default transparency\n  \x7d;\n\x7d\n").data

/-- The full text of `signaturePositions.ts` as shipped (the catalogue
declaration's type annotation `: PDFSignatureConfig` is part of the
header line). -/
def initialConfigText : Text :=
  configFilePrefix ++
    "export const signaturePositions: PDFSignatureConfig = \x7b\n  ".data ++
    catBody signaturePositions ++ catFooter ++ configFileSuffix

/-- A configuration text whose `absa-form` block stores `x: 999` while
the in-memory catalogue still stores `x: 78` — distinguishes reading
the text from falling back to memory. -/
def alteredAbsaText : Text :=
  renderCatalogue [("absa-form".data, ⟨999, 376, 200, 60, some 1⟩)]

/-!
The save flow of `handleSavePDFSignaturePosition`, as a pure function
of the request and the pre-state (file text, in-memory catalogue).

Order of effects in the handler: resolve the key; fresh-read the old
position; build `newPosition` with the request's x/y/width/height and a
HARD-CODED `opacity: 0.7` (the request's opacity is ignored); update
the in-memory catalogue; rewrite the file text; clear the module cache
(no observable effect in this model); fresh-read again and warn—only
comparing x and y—on mismatch; respond with message, formType, pdfName,
position and previousPosition.  If the old position was `undefined`,
the success log line dereferences `oldPosition.x` AFTER both updates,
so the handler fails with the state already changed.
-/

/-- JavaScript `a !== b` between a possibly-NaN/undefined number and a
number: `NaN`/`undefined` compare unequal to everything. -/
def jsStrictNe (a : Option Int) (b : Int) : Bool :=
  match a with
  | none => true
  | some v => v != b

/-- The keys of the JSON object passed to `res.json` on success. -/
def savePDFResponseKeys : List String :=
  ["message", "formType", "pdfName", "position", "previousPosition"]

structure SaveSuccess where
  formType : Text
  pdfName : Text
  position : SignaturePosition
  previousPosition : JSPos
  warned : Bool
  responseKeys : List String
deriving DecidableEq

/-- Post-state of a save request: file text and in-memory catalogue. -/
abbrev StoreState := Text × Catalogue

/-- `handleSavePDFSignaturePosition`, success path; `.error st` is the
500 response (with the state `st` the handler leaves behind). -/
def handleSavePDFSignaturePosition (pdfName : Text) (formTypeOpt : Option Text)
    (reqPosition : SignaturePosition) (st : StoreState) :
    Except StoreState (SaveSuccess × StoreState) :=
  let actualFormType := resolveFormType pdfName formTypeOpt
  let oldPosition := getFreshSignaturePosition st.1 st.2 actualFormType
  let newPosition : SignaturePosition :=
    ⟨reqPosition.x, reqPosition.y, reqPosition.width, reqPosition.height,
      some (mkRat 7 10)⟩
  let cat' := updateSignaturePosition st.2 actualFormType newPosition
  let text' := updateSignaturePositionInSourceCode actualFormType newPosition st.1
  match oldPosition with
  | none => .error (text', cat')
  | some oldPos =>
      match getFreshSignaturePosition text' cat' actualFormType with
      | none => .error (text', cat')
      | some verificationPosition =>
          let warned := jsStrictNe verificationPosition.x newPosition.x ||
            jsStrictNe verificationPosition.y newPosition.y
          .ok (⟨actualFormType, pdfName, newPosition, oldPos, warned,
                savePDFResponseKeys⟩, (text', cat'))

/-- The same handler when the `fsPromises.writeFile` inside
`updateSignaturePositionInSourceCode` throws (`StorageUnavailable`):
the in-memory catalogue has already been updated, the file text is
unchanged, the verification read is never reached, and the handler
answers 500.  The function returns the state the failed request leaves
behind. -/
def handleSavePDFWriteFailure (pdfName : Text) (formTypeOpt : Option Text)
    (reqPosition : SignaturePosition) (st : StoreState) : StoreState :=
  let actualFormType := resolveFormType pdfName formTypeOpt
  let newPosition : SignaturePosition :=
    ⟨reqPosition.x, reqPosition.y, reqPosition.width, reqPosition.height,
      some (mkRat 7 10)⟩
  let cat' := updateSignaturePosition st.2 actualFormType newPosition
  (st.1, cat')

/-!
Well-formedness notions used to state the general theorems.
-/

/-- A sane template key: nonempty and free of the delimiter characters
of the block grammar (quote, colon, braces) and of the backslash.  All
keys that occur in the repository are plain. -/
def PlainKey (k : Text) : Prop :=
  k ≠ [] ∧ ∀ c ∈ k, c ≠ '"' ∧ c ≠ ':' ∧ c ≠ '\\' ∧ c ≠ '\x7b' ∧ c ≠ '\x7d'

instance : DecidablePred PlainKey := fun k => by
  unfold PlainKey; infer_instance

/-- `a` can be scanned past when searching for key `k`: no non-empty
suffix of `a`, whatever text follows it, starts a block match for `k`. -/
def SkipText (k : Text) (a : Text) : Prop :=
  ∀ t b : Text, t <:+ a → t ≠ [] → matchAt k (t ++ b) = none

/-- `a` can be scanned past when searching for the literal `pat`: no
non-empty suffix of `a`, whatever follows it, starts with `pat`. -/
def SkipPat (pat : Text) (a : Text) : Prop :=
  ∀ t b : Text, t <:+ a → t ≠ [] → pat.isPrefixOf (t ++ b) = false

/-- Characters that can appear inside a rendered field area: not a
quote (so scans for quoted keys skip them), not a closing brace (so the
block body ends exactly at the rendered closing brace), and not a
backslash (so the buggy field regexes can never match). -/
def SafeChar (c : Char) : Prop := c ≠ '"' ∧ c ≠ '\\' ∧ c ≠ '\x7d'

instance : DecidablePred SafeChar := fun c => by
  unfold SafeChar; infer_instance

/-- A key on which the unescaped interpolation into the block regex is
exactly a literal match, and which triggers no `$` replacement-pattern
expansion in `String.replace`: nonempty and made of word characters
(letters, digits, `_`) and hyphens.  Every key the repository uses —
the eight catalogue keys and the twelve alias targets — is of this
form.  A `LiteralKey` is in particular `PlainKey`
(`literalKey_plain`), and on `LiteralKey` keys the literal matcher
model agrees with the regex-semantics model (`matchAtRegex_eq` and its
corollaries). -/
def LiteralKey (k : Text) : Prop :=
  k ≠ [] ∧ ∀ c ∈ k, c.isAlphanum = true ∨ c = '-' ∨ c = '_'

instance : DecidablePred LiteralKey := fun k => by
  unfold LiteralKey; infer_instance

/-- A catalogue holding a key with a regex metacharacter (`a.b`) next
to a key (`axb`) that the unescaped pattern `"a.b":\s*{[^}]*}` also
matches, since `.` matches `x`. -/
def dotKeyCatalogue : Catalogue :=
  [("a.b".data, ⟨1, 1, 1, 1, some 1⟩), ("axb".data, ⟨2, 2, 2, 2, some 1⟩)]

/-- Concrete two-entry catalogue used for evaluation. -/
def twoEntryCatalogue : Catalogue :=
  [("absa-form".data, ⟨78, 376, 200, 60, some 1⟩),
   ("default".data, ⟨168, 722, 200, 30, some (mkRat 7 10)⟩)]

/-- Concrete replacement record used for evaluation. -/
def samplePosition : SignaturePosition := ⟨1, 2, 3, 4, some 1⟩

/-- The shipped default record. -/
def defaultPosition : SignaturePosition := ⟨168, 722, 200, 30, some (mkRat 7 10)⟩

/-- The request record of the spec's Scenario C: a key not previously
present, saved with opacity 0.5. -/
def sampleRequest : SignaturePosition := ⟨10, 20, 50, 50, some (mkRat 1 2)⟩

/-- A configuration text in the shape of the shipped
`signaturePositions.ts`: a catalogue literal (one entry here) followed
by the file's two accessor functions, so that — as in the real file —
the last `\x7d;` lies inside `updateSignaturePosition`'s body, after
the catalogue's closing delimiter. -/
def smallConfigText : Text :=
  renderCatalogue [("absa-form".data, ⟨78, 376, 200, 60, some 1⟩)] ++ configFileSuffix

/-!
Basic lemmas: decompositions of the matchers, defining equations of the
fuel-based functions.
-/

lemma matchTail_decomp {s m rest : Text} (h : matchTail s = some (m, rest)) :
    s = m ++ rest := by
  unfold matchTail at h
  split at h
  next r2 heq =>
    split at h
    next rest2 heq2 =>
      injection h with h'
      injection h' with hm hr
      subst hm hr
      conv_lhs => rw [← @List.takeWhile_append_dropWhile Char isJSSpace s, heq]
      conv_lhs =>
        rw [← @List.takeWhile_append_dropWhile Char (fun c => c != '\x7d') r2, heq2]
      simp
    next => exact absurd h (by simp)
  next => exact absurd h (by simp)

lemma matchAt_decomp {k s m rest : Text} (h : matchAt k s = some (m, rest)) :
    s = m ++ rest ∧ m ≠ [] := by
  unfold matchAt at h
  split at h
  next hp =>
    rcases List.isPrefixOf_iff_prefix.mp hp with ⟨t, ht⟩
    have hdrop : s.drop (quotedColon k).length = t := by rw [← ht, List.drop_left]
    rw [hdrop] at h
    rcases hmt : matchTail t with _ | ⟨m', rest'⟩ <;> rw [hmt] at h
    · simp at h
    · rw [Option.map_some'] at h
      injection h with h'
      injection h' with hm hr
      subst hm hr
      refine ⟨?_, by simp [quotedColon]⟩
      rw [← ht, matchTail_decomp hmt, List.append_assoc]
  next => exact absurd h (by simp)

lemma findBlock_decomp {k s p m r : Text} (h : findBlock k s = some (p, m, r)) :
    s = p ++ m ++ r ∧ m ≠ [] := by
  induction s generalizing p with
  | nil =>
      unfold findBlock at h
      rcases hma : matchAt k [] with _ | ⟨m', rest'⟩ <;> rw [hma] at h
      · exact absurd h (by simp)
      · injection h with h'
        injection h' with h1 h2
        injection h2 with h2 h3
        subst h1 h2 h3
        obtain ⟨hd, hne⟩ := matchAt_decomp hma
        exact ⟨by simpa using hd, hne⟩
  | cons c t ih =>
      unfold findBlock at h
      rcases hma : matchAt k (c :: t) with _ | ⟨m', rest'⟩ <;> rw [hma] at h
      · rcases hfb : findBlock k t with _ | ⟨⟨p', m'', r''⟩⟩ <;> rw [hfb] at h
        · exact absurd h (by simp)
        · rw [Option.map_some'] at h
          injection h with h'
          injection h' with h1 h2
          injection h2 with h2 h3
          subst h1 h2 h3
          obtain ⟨hd, hne⟩ := ih hfb
          exact ⟨by rw [List.cons_append, List.cons_append, ← hd], hne⟩
      · injection h with h'
        injection h' with h1 h2
        injection h2 with h2 h3
        subst h1 h2 h3
        obtain ⟨hd, hne⟩ := matchAt_decomp hma
        exact ⟨by simpa using hd, hne⟩

lemma findBlock_rest_length {k s p m r : Text} (h : findBlock k s = some (p, m, r)) :
    r.length < s.length := by
  obtain ⟨hd, hne⟩ := findBlock_decomp h
  have : m.length ≠ 0 := fun hc => hne (List.length_eq_zero.mp hc)
  rw [hd]
  simp only [List.length_append]
  omega

lemma findBlock_nil (k : Text) : findBlock k [] = none := rfl

lemma replaceBlocksAux_irrel (k nb : Text) :
    ∀ n, ∀ f g : Nat, ∀ s : Text, s.length < f → s.length < g → s.length ≤ n →
      replaceBlocksAux k nb f s = replaceBlocksAux k nb g s := by
  intro n
  induction n with
  | zero =>
      intro f g s hf hg hn
      match f, g with
      | f' + 1, g' + 1 =>
        have hs : s = [] := List.length_eq_zero.mp (Nat.le_zero.mp hn)
        subst hs
        simp [replaceBlocksAux, findBlock_nil]
  | succ n ih =>
      intro f g s hf hg hn
      match f, g with
      | f' + 1, g' + 1 =>
        simp only [replaceBlocksAux]
        rcases hfb : findBlock k s with _ | ⟨p, m, r⟩
        · simp only [hfb]
        · simp only [hfb]
          have hr := findBlock_rest_length hfb
          rw [ih f' g' r (by omega) (by omega) (by omega)]

/-- The defining equation of `replaceBlocks`. -/
lemma replaceBlocks_eq (k nb s : Text) :
    replaceBlocks k nb s =
      match findBlock k s with
      | none => s
      | some (p, _, r) => p ++ nb ++ replaceBlocks k nb r := by
  unfold replaceBlocks
  conv_lhs => rw [replaceBlocksAux]
  rcases hfb : findBlock k s with _ | ⟨p, m, r⟩
  · simp only [hfb]
  · simp only [hfb]
    have hr := findBlock_rest_length hfb
    rw [replaceBlocksAux_irrel k nb r.length s.length (r.length + 1) r
      (by omega) (by omega) (by omega)]

lemma renderNatAux_irrel :
    ∀ n, ∀ f g : Nat, ∀ m : Nat, m < f → m < g → m ≤ n →
      renderNatAux f m = renderNatAux g m := by
  intro n
  induction n with
  | zero =>
      intro f g m hf hg hn
      match f, g with
      | f' + 1, g' + 1 =>
        have hm : m = 0 := Nat.le_zero.mp hn
        subst hm
        simp [renderNatAux]
  | succ n ih =>
      intro f g m hf hg hn
      match f, g with
      | f' + 1, g' + 1 =>
        simp only [renderNatAux]
        by_cases hlt : m < 10
        · simp [hlt]
        · have hdiv : m / 10 < m := Nat.div_lt_self (by omega) (by omega)
          simp only [hlt, if_false]
          rw [ih f' g' (m / 10) (by omega) (by omega) (by omega)]

/-- The defining equation of `renderNat`. -/
lemma renderNat_eq (n : Nat) :
    renderNat n =
      if n < 10 then [Char.ofNat (48 + n)]
      else renderNat (n / 10) ++ [Char.ofNat (48 + n % 10)] := by
  unfold renderNat
  conv_lhs => rw [renderNatAux]
  by_cases hlt : n < 10
  · simp [hlt]
  · have hdiv : n / 10 < n := Nat.div_lt_self (by omega) (by omega)
    simp only [hlt, if_false]
    rw [renderNatAux_irrel (n / 10) n (n / 10 + 1) (n / 10) (by omega) (by omega)
      (by omega)]

/-!
Character-safety of the rendered output.
-/

lemma safeChar_digit {d : Nat} (hd : d < 10) : SafeChar (Char.ofNat (48 + d)) := by
  interval_cases d <;> exact ⟨by decide, by decide, by decide⟩

lemma renderNatAux_safe : ∀ fuel n : Nat, ∀ c ∈ renderNatAux fuel n, SafeChar c := by
  intro fuel
  induction fuel with
  | zero => intro n c hc; simp [renderNatAux] at hc
  | succ fuel ih =>
      intro n c hc
      simp only [renderNatAux] at hc
      by_cases hlt : n < 10
      · rw [if_pos hlt] at hc
        rcases List.mem_singleton.mp hc with rfl
        exact safeChar_digit hlt
      · rw [if_neg hlt] at hc
        rcases List.mem_append.mp hc with h | h
        · exact ih _ c h
        · rcases List.mem_singleton.mp h with rfl
          exact safeChar_digit (Nat.mod_lt _ (by omega))

lemma renderNat_safe {n : Nat} {c : Char} (hc : c ∈ renderNat n) : SafeChar c :=
  renderNatAux_safe _ _ c hc

lemma renderInt_safe {i : Int} {c : Char} (hc : c ∈ renderInt i) : SafeChar c := by
  unfold renderInt at hc
  by_cases h : i < 0
  · rw [if_pos h] at hc
    rcases List.mem_cons.mp hc with rfl | hc
    · exact ⟨by decide, by decide, by decide⟩
    · exact renderNat_safe hc
  · rw [if_neg h] at hc
    exact renderNat_safe hc

lemma renderRat_safe {q : ℚ} {c : Char} (hc : c ∈ renderRat q) : SafeChar c := by
  unfold renderRat at hc
  have hbase : ∀ c' ∈ (if q.num < 0 then (['-'] : Text) else []), SafeChar c' := by
    intro c' hc'
    by_cases h : q.num < 0
    · rw [if_pos h] at hc'
      rcases List.mem_singleton.mp hc' with rfl
      exact ⟨by decide, by decide, by decide⟩
    · rw [if_neg h] at hc'
      simp at hc'
  by_cases hden : q.den = 1
  · rw [if_pos hden] at hc
    rcases List.mem_append.mp hc with h | h
    · exact hbase c h
    · exact renderNat_safe h
  · rw [if_neg hden] at hc
    rcases hfind : (List.range 20).find? (fun m => 10 ^ (m + 1) % q.den == 0) with _ | m <;>
      rw [hfind] at hc <;> simp only [] at hc
    · rcases List.mem_append.mp hc with h | h
      · rcases List.mem_append.mp h with h | h
        · exact hbase c h
        · exact renderNat_safe h
      · rcases List.mem_cons.mp h with rfl | h
        · exact ⟨by decide, by decide, by decide⟩
        · exact renderNat_safe h
    · rcases List.mem_append.mp hc with h | h
      · rcases List.mem_append.mp h with h | h
        · exact hbase c h
        · exact renderNat_safe h
      · rcases List.mem_cons.mp h with rfl | h
        · exact ⟨by decide, by decide, by decide⟩
        · rcases List.mem_append.mp h with h | h
          · rcases List.eq_of_mem_replicate h with rfl
            exact ⟨by decide, by decide, by decide⟩
          · exact renderNat_safe h

lemma npsFields_safe {p : SignaturePosition} {c : Char} (hc : c ∈ npsFields p) :
    SafeChar c := by
  unfold npsFields at hc
  simp only [List.append_assoc, List.mem_append] at hc
  rcases hc with hc | hc | hc | hc | hc | hc | hc | hc | hc | hc | hc
  · exact (by decide : ∀ c' ∈ "\n    x: ".data, SafeChar c') c hc
  · exact renderInt_safe hc
  · exact (by decide : ∀ c' ∈ ",\n    y: ".data, SafeChar c') c hc
  · exact renderInt_safe hc
  · exact (by decide : ∀ c' ∈ ",\n    width: ".data, SafeChar c') c hc
  · exact renderInt_safe hc
  · exact (by decide : ∀ c' ∈ ",\n    height: ".data, SafeChar c') c hc
  · exact renderInt_safe hc
  · exact (by decide : ∀ c' ∈ ",\n    opacity: ".data, SafeChar c') c hc
  · exact renderRat_safe hc
  · exact (by decide : ∀ c' ∈ "\n  ".data, SafeChar c') c hc

lemma newPositionString_noBackslash {k : Text} {p : SignaturePosition}
    (hk : '\\' ∉ k) : '\\' ∉ newPositionString k p := by
  intro hc
  unfold newPositionString at hc
  rcases List.mem_cons.mp hc with h | hc
  · exact absurd h (by decide)
  rcases List.mem_append.mp hc with h | hc
  · exact hk h
  rcases List.mem_cons.mp hc with h | hc
  · exact absurd h (by decide)
  rcases List.mem_cons.mp hc with h | hc
  · exact absurd h (by decide)
  rcases List.mem_cons.mp hc with h | hc
  · exact absurd h (by decide)
  rcases List.mem_cons.mp hc with h | hc
  · exact absurd h (by decide)
  rcases List.mem_append.mp hc with h | hc
  · exact (npsFields_safe h).2.1 rfl
  · exact absurd (List.mem_singleton.mp hc) (by decide)

/-!
The buggy field regexes can only match a text that contains a literal
backslash, so on backslash-free text the fresh read always falls back
to the in-memory catalogue.
-/

lemma buggyIntTail_backslash {s cap : Text} (h : buggyIntTail s = some cap) :
    '\\' ∈ s := by
  unfold buggyIntTail at h
  split at h
  next r => exact List.mem_cons_self _ _
  next hne => exact absurd h (by simp)

lemma buggyFieldCapture_backslash {name : Text} :
    ∀ {s cap : Text}, buggyFieldCapture name s = some cap → '\\' ∈ s := by
  intro s
  induction s with
  | nil => intro cap h; exact absurd h (by simp [buggyFieldCapture])
  | cons c t ih =>
      intro cap h
      unfold buggyFieldCapture at h
      split at h
      next hp =>
        split at h
        next cap' htail =>
          have := buggyIntTail_backslash htail
          exact List.drop_subset _ _ this
        next htail => exact List.mem_cons_of_mem _ (ih h)
      next hp => exact List.mem_cons_of_mem _ (ih h)

lemma buggyFieldCapture_none {name s : Text} (h : '\\' ∉ s) :
    buggyFieldCapture name s = none := by
  rcases hc : buggyFieldCapture name s with _ | cap
  · rfl
  · exact absurd (buggyFieldCapture_backslash hc) h

lemma findBlock_backslash_free {k text p m r : Text} (htext : '\\' ∉ text)
    (h : findBlock k text = some (p, m, r)) : '\\' ∉ m := by
  obtain ⟨hd, _⟩ := findBlock_decomp h
  intro hm
  exact htext (by rw [hd]; simp [hm])

/-- On a backslash-free configuration text the fresh read is exactly
the in-memory read: the block regex may well find the block, but the
buggy field extraction then fails and the fallback import wins. -/
lemma getFresh_fallback {text : Text} {cat : Catalogue} {k : Text}
    (htext : '\\' ∉ text) :
    getFreshSignaturePosition text cat k =
      (getSignaturePosition cat k).map SignaturePosition.toJS := by
  unfold getFreshSignaturePosition
  rcases hfb : findBlock k text with _ | ⟨p, m, r⟩ <;> simp only [hfb]
  have hm : '\\' ∉ m := findBlock_backslash_free htext hfb
  simp only [buggyFieldCapture_none hm]

/-!
The writer introduces no character that was not already in the file or
in the rendered block, so it preserves backslash-freeness.
-/

lemma replaceBlocks_mem (k nb : Text) :
    ∀ n : Nat, ∀ s : Text, s.length ≤ n → ∀ c : Char,
      c ∈ replaceBlocks k nb s → c ∈ s ∨ c ∈ nb := by
  intro n
  induction n with
  | zero =>
      intro s hs c hc
      have : s = [] := List.length_eq_zero.mp (Nat.le_zero.mp hs)
      subst this
      rw [replaceBlocks_eq, findBlock_nil] at hc
      exact Or.inl hc
  | succ n ih =>
      intro s hs c hc
      rw [replaceBlocks_eq] at hc
      rcases hfb : findBlock k s with _ | ⟨p, m, r⟩ <;> rw [hfb] at hc
      · exact Or.inl hc
      · obtain ⟨hd, _⟩ := findBlock_decomp hfb
        have hr := findBlock_rest_length hfb
        rcases List.mem_append.mp hc with h | h
        · rcases List.mem_append.mp h with h | h
          · exact Or.inl (by rw [hd]; simp [h])
          · exact Or.inr h
        · rcases ih r (by omega) c h with h | h
          · exact Or.inl (by rw [hd]; simp [h])
          · exact Or.inr h

lemma updateSourceCode_mem {k : Text} {p : SignaturePosition} {s : Text} {c : Char}
    (hc : c ∈ updateSignaturePositionInSourceCode k p s) :
    c ∈ s ∨ c ∈ newPositionString k p ∨ c = ',' ∨ c = '\n' ∨ c = ' ' := by
  unfold updateSignaturePositionInSourceCode at hc
  by_cases hinc : includesSub (quotedKey k) s = true
  · rw [if_pos hinc] at hc
    rcases replaceBlocks_mem k _ s.length s (le_refl _) c hc with h | h
    · exact Or.inl h
    · exact Or.inr (Or.inl h)
  · rw [if_neg hinc] at hc
    have hif : ∀ (P : Prop) (inst : Decidable P),
        c ∈ (if P then ([','] : Text) else []) → c = ',' := by
      intro P inst h
      split at h
      · exact List.mem_singleton.mp h
      · simp at h
    rcases hli : lastIdxSub "\x7d;".data s with _ | i <;> rw [hli] at hc
    · exact Or.inl hc
    · simp only [List.append_assoc, List.mem_append] at hc
      rcases hc with h | h | h | h | h | h
      · exact Or.inl (List.take_subset _ _ h)
      · exact Or.inr (Or.inr (Or.inl (hif _ _ h)))
      · rcases (by decide : ∀ c' : Char, c' ∈ "\n  ".data → c' = '\n' ∨ c' = ' ') c h
          with rfl | rfl
        · exact Or.inr (Or.inr (Or.inr (Or.inl rfl)))
        · exact Or.inr (Or.inr (Or.inr (Or.inr rfl)))
      · exact Or.inr (Or.inl h)
      · rcases List.mem_singleton.mp h with rfl
        exact Or.inr (Or.inr (Or.inr (Or.inl rfl)))
      · exact Or.inl (List.drop_subset _ _ h)

lemma updateSourceCode_noBackslash {k : Text} {p : SignaturePosition} {s : Text}
    (hs : '\\' ∉ s) (hk : '\\' ∉ k) :
    '\\' ∉ updateSignaturePositionInSourceCode k p s := by
  intro hc
  rcases updateSourceCode_mem hc with h | h | h | h | h
  · exact hs h
  · exact newPositionString_noBackslash hk h
  · exact absurd h (by decide)
  · exact absurd h (by decide)
  · exact absurd h (by decide)

/-!
In-memory catalogue lookups after an update.
-/

lemma assocLookup_update_self (cat : Catalogue) (k : Text) (p : SignaturePosition) :
    assocLookup (updateSignaturePosition cat k p) k =
      some { p with opacity := some (jsOr p.opacity (mkRat 7 10)) } := by
  induction cat with
  | nil => simp [updateSignaturePosition, assocLookup]
  | cons e t ih =>
      rcases e with ⟨k', v⟩
      unfold updateSignaturePosition
      by_cases hk : k' = k
      · rw [if_pos hk]
        unfold assocLookup
        rw [if_pos hk]
      · rw [if_neg hk]
        unfold assocLookup
        rw [if_neg hk]
        exact ih

lemma assocLookup_update_ne (cat : Catalogue) (k k' : Text) (p : SignaturePosition)
    (h : k' ≠ k) :
    assocLookup (updateSignaturePosition cat k p) k' = assocLookup cat k' := by
  induction cat with
  | nil =>
      simp only [updateSignaturePosition, assocLookup]
      rw [if_neg (fun hc => h hc.symm)]
  | cons e t ih =>
      rcases e with ⟨k₀, v⟩
      unfold updateSignaturePosition
      by_cases hk : k₀ = k
      · rw [if_pos hk]
        unfold assocLookup
        subst hk
        rw [if_neg (fun hc => h hc.symm), if_neg (fun hc => h hc.symm)]
      · rw [if_neg hk]
        unfold assocLookup
        by_cases hk' : k₀ = k'
        · rw [if_pos hk', if_pos hk']
        · rw [if_neg hk', if_neg hk']
          exact ih

lemma getSignaturePosition_update_self (cat : Catalogue) (k : Text)
    (p : SignaturePosition) :
    getSignaturePosition (updateSignaturePosition cat k p) k =
      some { p with opacity := some (jsOr p.opacity (mkRat 7 10)) } := by
  unfold getSignaturePosition
  rw [assocLookup_update_self]

/-!
The master lemma about the save flow on backslash-free text: the
resolved key is the caller's `formType`, the in-memory update and the
file rewrite both happen, the verification read returns exactly the
in-memory value just stored (the text parse falls back), so the x/y
warning never fires, and the response carries the hard-coded-opacity
record, the previous record, and no `verified` key.
-/

lemma jsOr_seven : jsOr (some (mkRat 7 10)) (mkRat 7 10) = mkRat 7 10 := by decide

lemma save_flow_ok {text : Text} {cat : Catalogue} {pdfName K : Text}
    {req : SignaturePosition} {old : SignaturePosition}
    (htext : '\\' ∉ text) (hK : '\\' ∉ K)
    (hold : getSignaturePosition cat K = some old) :
    handleSavePDFSignaturePosition pdfName (some K) req (text, cat) =
      .ok (⟨K, pdfName, ⟨req.x, req.y, req.width, req.height, some (mkRat 7 10)⟩,
            old.toJS, false, savePDFResponseKeys⟩,
        (updateSignaturePositionInSourceCode K
            ⟨req.x, req.y, req.width, req.height, some (mkRat 7 10)⟩ text,
         updateSignaturePosition cat K
            ⟨req.x, req.y, req.width, req.height, some (mkRat 7 10)⟩)) ∧
    getFreshSignaturePosition
        (updateSignaturePositionInSourceCode K
          ⟨req.x, req.y, req.width, req.height, some (mkRat 7 10)⟩ text)
        (updateSignaturePosition cat K
          ⟨req.x, req.y, req.width, req.height, some (mkRat 7 10)⟩) K =
      some (SignaturePosition.toJS
        ⟨req.x, req.y, req.width, req.height, some (mkRat 7 10)⟩) := by
  have hres : resolveFormType pdfName (some K) = K := rfl
  have hfresh0 : getFreshSignaturePosition text cat K = some old.toJS := by
    rw [getFresh_fallback htext, hold, Option.map_some']
  have htext' : '\\' ∉ updateSignaturePositionInSourceCode K
      ⟨req.x, req.y, req.width, req.height, some (mkRat 7 10)⟩ text :=
    updateSourceCode_noBackslash htext hK
  have hfresh1 : getFreshSignaturePosition
      (updateSignaturePositionInSourceCode K
        ⟨req.x, req.y, req.width, req.height, some (mkRat 7 10)⟩ text)
      (updateSignaturePosition cat K
        ⟨req.x, req.y, req.width, req.height, some (mkRat 7 10)⟩) K =
      some (SignaturePosition.toJS
        ⟨req.x, req.y, req.width, req.height, some (mkRat 7 10)⟩) := by
    rw [getFresh_fallback htext', getSignaturePosition_update_self, jsOr_seven]
    rfl
  refine ⟨?_, hfresh1⟩
  unfold handleSavePDFSignaturePosition
  simp only [hres, hfresh0, hfresh1]
  unfold jsStrictNe
  simp [SignaturePosition.toJS]

/-- The state left behind by a save whose file write throws: the text
is untouched, the in-memory catalogue already holds the new record. -/
lemma save_write_failure_state {text : Text} {cat : Catalogue} {pdfName K : Text}
    {req : SignaturePosition} :
    handleSavePDFWriteFailure pdfName (some K) req (text, cat) =
      (text, updateSignaturePosition cat K
        ⟨req.x, req.y, req.width, req.height, some (mkRat 7 10)⟩) := rfl

/-- Storing a record whose input carries the same effective opacity
produces the same catalogue. -/
lemma updateSignaturePosition_congr {p q : SignaturePosition}
    (h : ({ p with opacity := some (jsOr p.opacity (mkRat 7 10)) } : SignaturePosition) =
      { q with opacity := some (jsOr q.opacity (mkRat 7 10)) }) :
    ∀ cat : Catalogue, ∀ k : Text,
      updateSignaturePosition cat k p = updateSignaturePosition cat k q := by
  intro cat k
  induction cat with
  | nil => simp only [updateSignaturePosition, h]
  | cons e t ih =>
      rcases e with ⟨k₀, v⟩
      unfold updateSignaturePosition
      by_cases hk : k₀ = k
      · rw [if_pos hk, if_pos hk, h]
      · rw [if_neg hk, if_neg hk, ih]

/-!
Scanning lemmas for canonically rendered catalogue texts: where the
block regex and the `includes` check can and cannot match.
-/

lemma isPrefixOf_cons_head {a c : Char} {u t : Text}
    (h : (a :: u).isPrefixOf (c :: t) = true) : a = c ∧ u.isPrefixOf t = true := by
  rw [List.isPrefixOf_cons₂] at h
  rcases Bool.and_eq_true_iff.mp h with ⟨h1, h2⟩
  exact ⟨eq_of_beq h1, h2⟩

lemma matchAt_nil (k : Text) : matchAt k [] = none := by
  unfold matchAt
  rw [if_neg]
  simp [quotedColon]

lemma matchAt_none_of_head_ne {k : Text} {c : Char} {t : Text} (hc : c ≠ '"') :
    matchAt k (c :: t) = none := by
  unfold matchAt
  rw [if_neg]
  intro h
  exact hc ((isPrefixOf_cons_head (by simpa [quotedColon] using h)).1).symm

lemma findBlock_cons (k : Text) (c : Char) (t : Text) :
    findBlock k (c :: t) =
      match matchAt k (c :: t) with
      | some (m, rest) => some ([], m, rest)
      | none => (findBlock k t).map (fun x => (c :: x.1, x.2.1, x.2.2)) := rfl

lemma findBlock_of_matchAt_some {k s m r : Text} (h : matchAt k s = some (m, r)) :
    findBlock k s = some ([], m, r) := by
  match s with
  | [] => rw [matchAt_nil] at h; exact absurd h (by simp)
  | c :: t => rw [findBlock_cons, h]

lemma suffix_append_cases {t a b : Text} (h : t <:+ a ++ b) :
    t <:+ b ∨ ∃ u, u <:+ a ∧ u ≠ [] ∧ t = u ++ b := by
  induction a with
  | nil => exact Or.inl (by simpa using h)
  | cons c a' ih =>
      rw [List.cons_append] at h
      rcases List.suffix_cons_iff.mp h with rfl | h'
      · exact Or.inr ⟨c :: a', List.suffix_rfl, by simp, by simp⟩
      · rcases ih h' with h'' | ⟨u, hu, hune, rfl⟩
        · exact Or.inl h''
        · exact Or.inr ⟨u, hu.trans (List.suffix_cons c a'), hune, rfl⟩

lemma skipText_of_quoteFree {k a : Text} (ha : ∀ c ∈ a, c ≠ '"') : SkipText k a := by
  intro t b ht hne
  match t with
  | c :: t' =>
      exact matchAt_none_of_head_ne (ha c (ht.subset (List.mem_cons_self c t')))

lemma skipText_append {k a b : Text} (ha : SkipText k a) (hb : SkipText k b) :
    SkipText k (a ++ b) := by
  intro t b₀ ht hne
  rcases suffix_append_cases ht with h | ⟨u, hu, hune, rfl⟩
  · match t with
    | [] => exact absurd rfl hne
    | c :: t' => exact hb (c :: t') b₀ h (by simp)
  · rw [List.append_assoc]
    exact ha u (b ++ b₀) hu hune

lemma skipText_nil (k : Text) : SkipText k [] := by
  intro t b ht hne
  exact absurd (List.suffix_nil.mp ht) hne

lemma skipPat_of_quoteFree {q a : Text} (ha : ∀ c ∈ a, c ≠ '"') :
    SkipPat ('"' :: q) a := by
  intro t b ht hne
  match t with
  | c :: t' =>
      cases hp : ('"' :: q).isPrefixOf (c :: t' ++ b) with
      | false => rfl
      | true =>
          exact absurd ((isPrefixOf_cons_head hp).1).symm
            (ha c (ht.subset (List.mem_cons_self c t')))

lemma skipPat_append {q a b : Text} (ha : SkipPat q a) (hb : SkipPat q b) :
    SkipPat q (a ++ b) := by
  intro t b₀ ht hne
  rcases suffix_append_cases ht with h | ⟨u, hu, hune, rfl⟩
  · match t with
    | [] => exact absurd rfl hne
    | c :: t' => exact hb (c :: t') b₀ h (by simp)
  · rw [List.append_assoc]
    exact ha u (b ++ b₀) hu hune

lemma skipPat_nil (q : Text) : SkipPat q [] := by
  intro t b ht hne
  exact absurd (List.suffix_nil.mp ht) hne

/-- Two quote-free keys each terminated by a closing quote align: if the
pattern of one is a prefix of the other's rendering, the keys are
equal. -/
lemma quote_free_key_eq {k k' : Text}
    (hk : ∀ c ∈ k, c ≠ '"') (hk' : ∀ c ∈ k', c ≠ '"') :
    ∀ {u v : Text}, (k ++ '"' :: u).isPrefixOf (k' ++ '"' :: v) = true → k = k' := by
  induction k generalizing k' with
  | nil =>
      intro u v h
      match k' with
      | [] => rfl
      | c' :: t' =>
          rw [List.nil_append, List.cons_append] at h
          exact absurd (isPrefixOf_cons_head h).1.symm (hk' c' (List.mem_cons_self _ _))
  | cons c t ih =>
      intro u v h
      match k' with
      | [] =>
          rw [List.cons_append, List.nil_append] at h
          exact absurd (isPrefixOf_cons_head h).1 (hk c (List.mem_cons_self _ _))
      | c' :: t' =>
          rw [List.cons_append, List.cons_append] at h
          obtain ⟨hc, h'⟩ := isPrefixOf_cons_head h
          subst hc
          rw [ih (fun x hx => hk x (List.mem_cons_of_mem _ hx))
            (fun x hx => hk' x (List.mem_cons_of_mem _ hx)) h']

lemma quotedColon_not_prefixOf_quoteHead {k k' : Text}
    (hk : ∀ c ∈ k, c ≠ '"') (hk' : ∀ c ∈ k', c ≠ '"') (hne : k ≠ k') {w : Text} :
    (quotedColon k).isPrefixOf ('"' :: (k' ++ '"' :: w)) = false := by
  cases hp : (quotedColon k).isPrefixOf ('"' :: (k' ++ '"' :: w)) with
  | false => rfl
  | true =>
      unfold quotedColon at hp
      have h2 : (k ++ '"' :: [':']).isPrefixOf (k' ++ '"' :: w) = true :=
        (isPrefixOf_cons_head
          (show (('"' :: (k ++ '"' :: [':'])).isPrefixOf
            ('"' :: (k' ++ '"' :: w))) = true from hp)).2
      exact absurd (quote_free_key_eq hk hk' h2) hne

lemma quotedKey_not_prefixOf_quoteHead {k k' : Text}
    (hk : ∀ c ∈ k, c ≠ '"') (hk' : ∀ c ∈ k', c ≠ '"') (hne : k ≠ k') {w : Text} :
    (quotedKey k).isPrefixOf ('"' :: (k' ++ '"' :: w)) = false := by
  cases hp : (quotedKey k).isPrefixOf ('"' :: (k' ++ '"' :: w)) with
  | false => rfl
  | true =>
      unfold quotedKey at hp
      have h2 : (k ++ '"' :: []).isPrefixOf (k' ++ '"' :: w) = true :=
        (isPrefixOf_cons_head
          (show (('"' :: (k ++ '"' :: [])).isPrefixOf
            ('"' :: (k' ++ '"' :: w))) = true from hp)).2
      exact absurd (quote_free_key_eq hk hk' h2) hne

lemma quotedColon_not_prefixOf_colonTail {k : Text} (hk : PlainKey k) {w : Text} :
    (quotedColon k).isPrefixOf ('"' :: ':' :: w) = false := by
  cases hp : (quotedColon k).isPrefixOf ('"' :: ':' :: w) with
  | false => rfl
  | true =>
      exfalso
      unfold quotedColon at hp
      have h2 := (isPrefixOf_cons_head hp).2
      match k, hk, h2 with
      | [], hk, h2 => exact hk.1 rfl
      | c :: t, hk, h2 =>
          have h3 := isPrefixOf_cons_head
            (show ((c :: (t ++ ['"', ':'])).isPrefixOf (':' :: w)) = true from h2)
          exact ((hk.2 c (List.mem_cons_self _ _)).2.1) h3.1

lemma quotedKey_not_prefixOf_colonTail {k : Text} (hk : PlainKey k) {w : Text} :
    (quotedKey k).isPrefixOf ('"' :: ':' :: w) = false := by
  cases hp : (quotedKey k).isPrefixOf ('"' :: ':' :: w) with
  | false => rfl
  | true =>
      exfalso
      unfold quotedKey at hp
      have h2 := (isPrefixOf_cons_head hp).2
      match k, hk, h2 with
      | [], hk, h2 => exact hk.1 rfl
      | c :: t, hk, h2 =>
          have h3 := isPrefixOf_cons_head
            (show ((c :: (t ++ ['"'])).isPrefixOf (':' :: w)) = true from h2)
          exact ((hk.2 c (List.mem_cons_self _ _)).2.1) h3.1

lemma dropWhile_append_all {P : Char → Bool} {xs ys : Text} (h : ∀ x ∈ xs, P x = true) :
    (xs ++ ys).dropWhile P = ys.dropWhile P := by
  induction xs with
  | nil => rfl
  | cons c t ih =>
      rw [List.cons_append, List.dropWhile_cons, h c (List.mem_cons_self _ _)]
      exact ih (fun x hx => h x (List.mem_cons_of_mem _ hx))

lemma takeWhile_append_all {P : Char → Bool} {xs ys : Text} (h : ∀ x ∈ xs, P x = true) :
    (xs ++ ys).takeWhile P = xs ++ ys.takeWhile P := by
  induction xs with
  | nil => rfl
  | cons c t ih =>
      rw [List.cons_append, List.takeWhile_cons, h c (List.mem_cons_self _ _)]
      rw [ih (fun x hx => h x (List.mem_cons_of_mem _ hx))]
      rfl

lemma npsFields_ne_brace {p : SignaturePosition} :
    ∀ x ∈ npsFields p, (x != '\x7d') = true := fun x hx =>
  bne_iff_ne.mpr (npsFields_safe hx).2.2

/-- The block regex, started exactly at a rendered block for the same
key, matches exactly that block. -/
lemma matchAt_nps_self (k : Text) (p : SignaturePosition) (b : Text) :
    matchAt k (newPositionString k p ++ b) = some (newPositionString k p, b) := by
  have hshape : newPositionString k p ++ b =
      quotedColon k ++ (' ' :: '\x7b' :: (npsFields p ++ '\x7d' :: b)) := by
    unfold newPositionString quotedColon
    simp
  rw [hshape]
  unfold matchAt
  rw [if_pos (List.isPrefixOf_iff_prefix.mpr (List.prefix_append _ _)), List.drop_left]
  have hd2 : (npsFields p ++ '\x7d' :: b).dropWhile (fun c => c != '\x7d') =
      '\x7d' :: b := by
    rw [dropWhile_append_all npsFields_ne_brace]
    rfl
  have ht2 : (npsFields p ++ '\x7d' :: b).takeWhile (fun c => c != '\x7d') =
      npsFields p := by
    rw [takeWhile_append_all npsFields_ne_brace]
    simp [List.takeWhile_cons]
  unfold matchTail
  rw [show (' ' :: '\x7b' :: (npsFields p ++ '\x7d' :: b)).dropWhile isJSSpace =
      '\x7b' :: (npsFields p ++ '\x7d' :: b) from rfl]
  simp only [hd2, ht2]
  rw [Option.map_some',
    show List.takeWhile isJSSpace (' ' :: '\x7b' :: (npsFields p ++ '\x7d' :: b)) =
      [' '] from rfl]
  unfold newPositionString quotedColon
  simp

lemma findBlock_nps_self (k : Text) (p : SignaturePosition) (b : Text) :
    findBlock k (newPositionString k p ++ b) =
      some ([], newPositionString k p, b) :=
  findBlock_of_matchAt_some (matchAt_nps_self k p b)

lemma npsRest_quoteFree {p : SignaturePosition} :
    ∀ c ∈ (':' :: ' ' :: '\x7b' :: (npsFields p ++ ['\x7d']) : Text), c ≠ '"' := by
  intro c hc
  rcases List.mem_cons.mp hc with rfl | hc
  · decide
  rcases List.mem_cons.mp hc with rfl | hc
  · decide
  rcases List.mem_cons.mp hc with rfl | hc
  · decide
  rcases List.mem_append.mp hc with h | h
  · exact (npsFields_safe h).1
  · rcases List.mem_singleton.mp h with rfl
    decide

lemma nps_shape (k : Text) (p : SignaturePosition) :
    newPositionString k p =
      '"' :: (k ++ '"' :: (':' :: ' ' :: '\x7b' :: (npsFields p ++ ['\x7d']))) := rfl

/-- Scanning for key `k` passes over the rendered block of any other
plain key. -/
lemma skipText_nps {k k' : Text} (hk : PlainKey k) (hk' : PlainKey k') (hne : k ≠ k')
    (p : SignaturePosition) : SkipText k (newPositionString k' p) := by
  intro t b ht hne'
  have hqf : ∀ c ∈ k, c ≠ '"' := fun c hc => (hk.2 c hc).1
  have hqf' : ∀ c ∈ k', c ≠ '"' := fun c hc => (hk'.2 c hc).1
  rw [nps_shape] at ht
  rcases List.suffix_cons_iff.mp ht with rfl | ht'
  · rw [List.cons_append]
    unfold matchAt
    rw [if_neg]
    intro hcond
    rw [List.append_assoc, List.cons_append] at hcond
    rw [quotedColon_not_prefixOf_quoteHead hqf hqf' hne] at hcond
    exact absurd hcond (by simp)
  · rcases suffix_append_cases ht' with h2 | ⟨u, hu, hune, rfl⟩
    · rcases List.suffix_cons_iff.mp h2 with rfl | h3
      · rw [List.cons_append]
        unfold matchAt
        rw [if_neg]
        intro hcond
        rw [List.cons_append] at hcond
        rw [quotedColon_not_prefixOf_colonTail hk] at hcond
        exact absurd hcond (by simp)
      · exact skipText_of_quoteFree npsRest_quoteFree t b h3 hne'
    · match u, hune with
      | c :: u', _ =>
          have hc : c ∈ k' := hu.subset (List.mem_cons_self _ _)
          rw [List.cons_append, List.cons_append]
          exact matchAt_none_of_head_ne (hqf' c hc)

/-- The `includes("key")` scan likewise passes over the rendered block
of any other plain key. -/
lemma skipPat_nps {k k' : Text} (hk : PlainKey k) (hk' : PlainKey k') (hne : k ≠ k')
    (p : SignaturePosition) : SkipPat (quotedKey k) (newPositionString k' p) := by
  intro t b ht hne'
  have hqf : ∀ c ∈ k, c ≠ '"' := fun c hc => (hk.2 c hc).1
  have hqf' : ∀ c ∈ k', c ≠ '"' := fun c hc => (hk'.2 c hc).1
  rw [nps_shape] at ht
  rcases List.suffix_cons_iff.mp ht with rfl | ht'
  · rw [List.cons_append, List.append_assoc, List.cons_append]
    exact quotedKey_not_prefixOf_quoteHead hqf hqf' hne
  · rcases suffix_append_cases ht' with h2 | ⟨u, hu, hune, rfl⟩
    · rcases List.suffix_cons_iff.mp h2 with rfl | h3
      · rw [List.cons_append]
        exact quotedKey_not_prefixOf_colonTail hk
      · exact skipPat_of_quoteFree npsRest_quoteFree t b h3 hne'
    · match u, hune with
      | c :: u', _ =>
          have hc : c ∈ k' := hu.subset (List.mem_cons_self _ _)
          rw [List.cons_append, List.cons_append]
          cases hp : (quotedKey k).isPrefixOf (c :: (u' ++ ('"' ::
              (':' :: ' ' :: '\x7b' :: (npsFields p ++ ['\x7d']))) ++ b)) with
          | false => rfl
          | true =>
              exact absurd ((isPrefixOf_cons_head
                (show (('"' :: (k ++ ['"'])).isPrefixOf _) = true from hp)).1).symm
                (hqf' c hc)

lemma sep_quoteFree : ∀ c ∈ ",\n  ".data, c ≠ '"' := by decide

lemma catHeader_quoteFree : ∀ c ∈ catHeader, c ≠ '"' := by decide

lemma catFooter_quoteFree : ∀ c ∈ catFooter, c ≠ '"' := by decide

/-- Scanning for a key that labels none of the entries passes over the
whole body. -/
lemma skipText_catBody {k : Text} (hk : PlainKey k) :
    ∀ es : Catalogue, (∀ e ∈ es, PlainKey e.1) → (∀ e ∈ es, e.1 ≠ k) →
      SkipText k (catBody es) := by
  intro es
  induction es with
  | nil => intro _ _; exact skipText_nil k
  | cons e rest ih =>
      intro hpl hnk
      rcases e with ⟨k₀, p₀⟩
      have hk₀ : PlainKey k₀ := hpl _ (List.mem_cons_self _ _)
      have hne : k ≠ k₀ := fun h => hnk _ (List.mem_cons_self _ _) h.symm
      unfold catBody
      refine skipText_append (skipText_nps hk hk₀ hne p₀) ?_
      match rest with
      | [] => exact skipText_nil k
      | r :: rs =>
          exact skipText_append (skipText_of_quoteFree sep_quoteFree)
            (ih (fun e he => hpl e (List.mem_cons_of_mem _ he))
              (fun e he => hnk e (List.mem_cons_of_mem _ he)))

lemma skipPat_catBody {k : Text} (hk : PlainKey k) :
    ∀ es : Catalogue, (∀ e ∈ es, PlainKey e.1) → (∀ e ∈ es, e.1 ≠ k) →
      SkipPat (quotedKey k) (catBody es) := by
  intro es
  induction es with
  | nil => intro _ _; exact skipPat_nil _
  | cons e rest ih =>
      intro hpl hnk
      rcases e with ⟨k₀, p₀⟩
      have hk₀ : PlainKey k₀ := hpl _ (List.mem_cons_self _ _)
      have hne : k ≠ k₀ := fun h => hnk _ (List.mem_cons_self _ _) h.symm
      unfold catBody
      refine skipPat_append (skipPat_nps hk hk₀ hne p₀) ?_
      match rest with
      | [] => exact skipPat_nil _
      | r :: rs =>
          have : SkipPat ('"' :: (k ++ ['"'])) (",\n  ".data) :=
            skipPat_of_quoteFree sep_quoteFree
          exact skipPat_append this
            (ih (fun e he => hpl e (List.mem_cons_of_mem _ he))
              (fun e he => hnk e (List.mem_cons_of_mem _ he)))

lemma skipText_cons_tail {k : Text} {c : Char} {t : Text}
    (h : SkipText k (c :: t)) : SkipText k t := fun u b hu hne =>
  h u b (hu.trans (List.suffix_cons c t)) hne

/-- Scanning an appended text whose left part is skippable finds what
the right part finds, shifted. -/
lemma findBlock_skip {k a : Text} (ha : SkipText k a) :
    ∀ b, findBlock k (a ++ b) =
      (findBlock k b).map (fun x => (a ++ x.1, x.2.1, x.2.2)) := by
  induction a with
  | nil =>
      intro b
      rw [List.nil_append]
      rcases findBlock k b with _ | ⟨p, m, r⟩ <;> simp
  | cons c t ih =>
      intro b
      have hm : matchAt k (c :: (t ++ b)) = none :=
        ha (c :: t) b List.suffix_rfl (by simp)
      rw [List.cons_append, findBlock_cons]
      simp only [hm]
      rw [ih (skipText_cons_tail ha) b]
      rcases findBlock k b with _ | ⟨p, m, r⟩ <;> simp

lemma findBlock_none_of_skip {k s : Text} (h : SkipText k s) :
    findBlock k s = none := by
  have h0 := findBlock_skip h []
  rw [List.append_nil, findBlock_nil] at h0
  rw [h0]
  rfl

lemma replaceBlocks_of_skip {k nb s : Text} (h : SkipText k s) :
    replaceBlocks k nb s = s := by
  rw [replaceBlocks_eq, findBlock_none_of_skip h]

lemma replaceBlocks_append_skip {k nb a : Text} (ha : SkipText k a) (b : Text) :
    replaceBlocks k nb (a ++ b) = a ++ replaceBlocks k nb b := by
  rw [replaceBlocks_eq, findBlock_skip ha b]
  rcases hfb : findBlock k b with _ | ⟨p, m, r⟩
  · rw [Option.map_none']
    conv_rhs => rw [replaceBlocks_eq, hfb]
  · rw [Option.map_some']
    conv_rhs => rw [replaceBlocks_eq, hfb]
    simp [List.append_assoc]

/-- Replacing at a text that begins with the key's own rendered block:
the block becomes the replacement and scanning continues behind it. -/
lemma replaceBlocks_nps_head {k nb : Text} (p : SignaturePosition) (b : Text) :
    replaceBlocks k nb (newPositionString k p ++ b) = nb ++ replaceBlocks k nb b := by
  rw [replaceBlocks_eq, findBlock_nps_self]
  simp

lemma includesSub_eq_false_of_skipPat {pat a : Text} (hne : pat ≠ [])
    (h : SkipPat pat a) : includesSub pat a = false := by
  induction a with
  | nil =>
      unfold includesSub
      match pat, hne with
      | c :: t, _ => rfl
  | cons c t ih =>
      unfold includesSub
      have h1 : pat.isPrefixOf (c :: t) = false := by
        have := h (c :: t) [] List.suffix_rfl (by simp)
        rwa [List.append_nil] at this
      rw [h1, ih (fun u b hu hneu => h u b (hu.trans (List.suffix_cons c t)) hneu)]
      rfl

lemma includesSub_of_decomp {pat : Text} (hne : pat ≠ []) :
    ∀ (a b s : Text), s = a ++ pat ++ b → includesSub pat s = true := by
  intro a
  induction a with
  | nil =>
      intro b s hs
      rw [List.nil_append] at hs
      subst hs
      match pat, hne with
      | c :: t, _ =>
          rw [List.cons_append]
          simp only [includesSub]
          rw [show ((c :: t).isPrefixOf (c :: (t ++ b))) = true from
            List.isPrefixOf_iff_prefix.mpr ⟨b, by simp⟩]
          simp
  | cons c a' ih =>
      intro b s hs
      subst hs
      rw [List.cons_append, List.cons_append]
      simp only [includesSub]
      rw [ih b ((a' ++ pat) ++ b) (by simp)]
      simp

lemma take_append_len (a b : Text) (n : Nat) :
    (a ++ b).take (a.length + n) = a ++ b.take n := by
  induction a with
  | nil => simp
  | cons c t ih =>
      rw [List.cons_append, List.length_cons]
      rw [show t.length + 1 + n = (t.length + n) + 1 from by omega]
      rw [List.take_succ_cons, ih, List.cons_append]

lemma drop_append_len (a b : Text) (n : Nat) :
    (a ++ b).drop (a.length + n) = b.drop n := by
  induction a with
  | nil => simp
  | cons c t ih =>
      rw [List.cons_append, List.length_cons]
      rw [show t.length + 1 + n = (t.length + n) + 1 from by omega]
      rw [List.drop_succ_cons, ih]

lemma lastIdxSub_append_some {pat b : Text} {j : Nat} (h : lastIdxSub pat b = some j) :
    ∀ a : Text, lastIdxSub pat (a ++ b) = some (a.length + j) := by
  intro a
  induction a with
  | nil => simpa using h
  | cons c t ih =>
      rw [List.cons_append]
      unfold lastIdxSub
      rw [ih]
      simp only [List.length_cons]
      rw [show t.length + 1 + j = (t.length + j) + 1 from by omega]

lemma setEntry_ne_nil {es : Catalogue} (h : es ≠ []) (k : Text)
    (p : SignaturePosition) : setEntry es k p ≠ [] := by
  match es, h with
  | (k₀, p₀) :: t, _ =>
      unfold setEntry
      by_cases hk : k₀ = k
      · rw [if_pos hk]; simp
      · rw [if_neg hk]; simp

lemma setEntry_eq_self {es : Catalogue} {k : Text} {pk : SignaturePosition}
    (h : assocLookup es k = some pk) : setEntry es k pk = es := by
  induction es with
  | nil => simp [assocLookup] at h
  | cons e t ih =>
      rcases e with ⟨k₀, p₀⟩
      unfold assocLookup at h
      unfold setEntry
      by_cases hk : k₀ = k
      · rw [if_pos hk] at h ⊢
        injection h with h
        rw [hk, h]
      · rw [if_neg hk] at h ⊢
        rw [ih h]

lemma catBody_cons_of_ne_nil {e : Text × SignaturePosition} {rest : Catalogue}
    (h : rest ≠ []) :
    catBody (e :: rest) = newPositionString e.1 e.2 ++ ",\n  ".data ++ catBody rest := by
  match rest, h with
  | r :: rs, _ =>
      rcases e with ⟨k, p⟩
      simp [catBody, List.append_assoc]

lemma catBody_ends {es : Catalogue} (h : es ≠ []) :
    ∃ u : Text, catBody es = u ++ ['\x7d'] := by
  induction es with
  | nil => exact absurd rfl h
  | cons e rest ih =>
      rcases e with ⟨k, p⟩
      match rest with
      | [] =>
          refine ⟨'"' :: (k ++ '"' :: (':' :: ' ' :: '\x7b' :: npsFields p)), ?_⟩
          rw [show catBody [(k, p)] = newPositionString k p from by simp [catBody]]
          rw [nps_shape]
          simp
      | r :: rs =>
          obtain ⟨u, hu⟩ := ih (by simp)
          refine ⟨newPositionString k p ++ ",\n  ".data ++ u, ?_⟩
          rw [catBody_cons_of_ne_nil (by simp), hu]
          simp

/-- Decomposition of a rendered body around the entry of a present key:
the part before and after can both be scanned past, and re-rendering
with any replacement value changes exactly the block in the middle. -/
lemma catBody_present {K : Text} (hK : PlainKey K) :
    ∀ es : Catalogue, (∀ e ∈ es, PlainKey e.1) → (es.map Prod.fst).Nodup →
    ∀ pk : SignaturePosition, assocLookup es K = some pk →
      ∃ pre post : Text,
        SkipText K pre ∧ SkipText K post ∧
        (∀ q : SignaturePosition,
          catBody (setEntry es K q) = pre ++ newPositionString K q ++ post) := by
  intro es
  induction es with
  | nil => intro _ _ pk h; simp [assocLookup] at h
  | cons e rest ih =>
      intro hpl hnd pk hv
      rcases e with ⟨k₀, p₀⟩
      by_cases hk : k₀ = K
      · subst hk
        have hnd' : (k₀ :: rest.map Prod.fst).Nodup := by
          rw [List.map_cons] at hnd
          exact hnd
        have hnotin : ∀ e' ∈ rest, e'.1 ≠ k₀ := by
          intro e' he' heq
          exact (List.nodup_cons.mp hnd').1
            (heq ▸ List.mem_map_of_mem Prod.fst he')
        have hset : ∀ q : SignaturePosition,
            setEntry ((k₀, p₀) :: rest) k₀ q = (k₀, q) :: rest := by
          intro q
          simp [setEntry]
        rcases rest with _ | ⟨r, rs⟩
        · refine ⟨[], [], skipText_nil _, skipText_nil _, ?_⟩
          intro q
          rw [hset q]
          simp [catBody]
        · refine ⟨[], ",\n  ".data ++ catBody (r :: rs), skipText_nil _, ?_, ?_⟩
          · exact skipText_append (skipText_of_quoteFree sep_quoteFree)
              (skipText_catBody hK (r :: rs)
                (fun e' he' => hpl e' (List.mem_cons_of_mem _ he'))
                hnotin)
          · intro q
            rw [hset q, catBody_cons_of_ne_nil (by simp)]
            simp
      · have hv' : assocLookup rest K = some pk := by
          unfold assocLookup at hv
          rwa [if_neg hk] at hv
        have hrestne : rest ≠ [] := by
          intro hr
          rw [hr] at hv'
          simp [assocLookup] at hv'
        have hk₀pl : PlainKey k₀ := hpl _ (List.mem_cons_self _ _)
        have hnd' : (k₀ :: rest.map Prod.fst).Nodup := by
          rw [List.map_cons] at hnd
          exact hnd
        obtain ⟨pre', post', hs1, hs2, hrender⟩ :=
          ih (fun e' he' => hpl e' (List.mem_cons_of_mem _ he'))
            (List.nodup_cons.mp hnd').2 pk hv'
        refine ⟨newPositionString k₀ p₀ ++ ",\n  ".data ++ pre', post', ?_, hs2, ?_⟩
        · exact skipText_append
            (skipText_append (skipText_nps hK hk₀pl (fun h => hk h.symm) p₀)
              (skipText_of_quoteFree sep_quoteFree)) hs1
        · intro q
          have hset : setEntry ((k₀, p₀) :: rest) K q = (k₀, p₀) :: setEntry rest K q := by
            simp only [setEntry]
            rw [if_neg hk]
          rw [hset, catBody_cons_of_ne_nil (setEntry_ne_nil hrestne K q), hrender q]
          simp

lemma dropWhile_exists_of_head_false {P : Char → Bool} {c : Char} (hc : P c = false)
    (u w : Text) : ∃ u', (u ++ c :: w).dropWhile P = u' ++ c :: w := by
  induction u with
  | nil =>
      refine ⟨[], ?_⟩
      rw [List.nil_append, List.dropWhile_cons, hc]
      simp
  | cons d t ih =>
      rw [List.cons_append, List.dropWhile_cons]
      cases hd : P d with
      | true =>
          simpa using ih
      | false =>
          refine ⟨d :: t, ?_⟩
          simp

lemma trimJS_ends {c : Char} (hc : isJSSpace c = false) (u w : Text)
    (hw : ∀ x ∈ w, isJSSpace x = true) :
    ∃ v, trimJS (u ++ c :: w) = v ++ [c] := by
  obtain ⟨u', hu'⟩ := dropWhile_exists_of_head_false hc u w
  refine ⟨u', ?_⟩
  unfold trimJS
  rw [hu', List.reverse_append, List.reverse_cons, List.append_assoc,
    List.singleton_append,
    dropWhile_append_all (fun x hx => hw x (List.mem_reverse.mp hx)),
    List.dropWhile_cons, hc]
  simp

lemma endsWithCh_append_single (v : Text) (c x : Char) :
    endsWithCh (v ++ [c]) x = decide (c = x) := by
  unfold endsWithCh
  rw [List.getLast?_concat]

/-- With the key present, `blockOf` finds exactly the rendered block,
whatever skippable text surrounds it. -/
lemma blockOf_present_general {K pre post : Text} (hpre : SkipText K pre)
    (pk : SignaturePosition) :
    blockOf K (pre ++ newPositionString K pk ++ post) =
      some (newPositionString K pk) := by
  unfold blockOf
  rw [show pre ++ newPositionString K pk ++ post =
    pre ++ (newPositionString K pk ++ post) from by simp]
  rw [findBlock_skip hpre, findBlock_nps_self]
  rfl

lemma catBody_noBackslash {es : Catalogue} (hpl : ∀ e ∈ es, PlainKey e.1) :
    '\\' ∉ catBody es := by
  induction es with
  | nil => simp [catBody]
  | cons e rest ih =>
      rcases e with ⟨k, p⟩
      intro hc
      have hknb : '\\' ∉ k := fun hm =>
        ((hpl _ (List.mem_cons_self _ _)).2 _ hm).2.2.1 rfl
      unfold catBody at hc
      rcases List.mem_append.mp hc with h | h
      · exact newPositionString_noBackslash hknb h
      · match rest, h with
        | r :: rs, h =>
            rcases List.mem_append.mp h with h | h
            · exact absurd h (by decide)
            · exact ih (fun e' he' => hpl e' (List.mem_cons_of_mem _ he')) h

lemma renderCatalogue_noBackslash {es : Catalogue}
    (hpl : ∀ e ∈ es, PlainKey e.1) : '\\' ∉ renderCatalogue es := by
  intro hc
  unfold renderCatalogue at hc
  rcases List.mem_append.mp hc with h | h
  · rcases List.mem_append.mp h with h | h
    · exact absurd h (by decide)
    · exact catBody_noBackslash hpl h
  · exact absurd h (by decide)

/-- The writer on a canonically rendered catalogue, existing key: the
result is the canonical rendering with exactly that entry's value
replaced. -/
lemma updateSourceCode_renderCat_replace {K : Text} {es : Catalogue}
    {pk : SignaturePosition} (hK : PlainKey K) (hpl : ∀ e ∈ es, PlainKey e.1)
    (hnd : (es.map Prod.fst).Nodup) (hv : assocLookup es K = some pk)
    (p : SignaturePosition) :
    updateSignaturePositionInSourceCode K p (renderCatalogue es) =
      renderCatalogue (setEntry es K p) := by
  obtain ⟨pre, post, hpre, hpost, hrender⟩ := catBody_present hK es hpl hnd pk hv
  have hbody : catBody es = pre ++ newPositionString K pk ++ post := by
    have := hrender pk
    rwa [setEntry_eq_self hv] at this
  have hinc : includesSub (quotedKey K) (renderCatalogue es) = true := by
    refine includesSub_of_decomp (by simp [quotedKey])
      (catHeader ++ pre)
      ((':' :: ' ' :: '\x7b' :: (npsFields pk ++ ['\x7d'])) ++ post ++ catFooter)
      (renderCatalogue es) ?_
    unfold renderCatalogue
    rw [hbody, nps_shape]
    simp [quotedKey, List.append_assoc]
  unfold updateSignaturePositionInSourceCode
  rw [if_pos hinc]
  have hheadskip : SkipText K catHeader := skipText_of_quoteFree catHeader_quoteFree
  have hfootskip : SkipText K catFooter := skipText_of_quoteFree catFooter_quoteFree
  unfold renderCatalogue
  rw [hbody]
  rw [show catHeader ++ (pre ++ newPositionString K pk ++ post) ++ catFooter =
    (catHeader ++ pre) ++ (newPositionString K pk ++ (post ++ catFooter)) from by
      simp [List.append_assoc]]
  rw [replaceBlocks_append_skip (skipText_append hheadskip hpre),
    replaceBlocks_nps_head,
    replaceBlocks_of_skip (skipText_append hpost hfootskip)]
  rw [hrender p]
  simp [List.append_assoc]

/-- The writer on a canonically rendered catalogue, absent key: the
rendered block is inserted, with a comma, before the `};` that closes
the catalogue (the last `};` of this text). -/
lemma updateSourceCode_renderCat_insert {K : Text} {es : Catalogue}
    (hK : PlainKey K) (hpl : ∀ e ∈ es, PlainKey e.1)
    (hnot : ∀ e ∈ es, e.1 ≠ K) (hne : es ≠ []) (p : SignaturePosition) :
    updateSignaturePositionInSourceCode K p (renderCatalogue es) =
      (catHeader ++ catBody es ++ ['\n']) ++ [','] ++ "\n  ".data ++
        newPositionString K p ++ ['\n'] ++ "\x7d;\n".data := by
  have hinc : includesSub (quotedKey K) (renderCatalogue es) = false := by
    refine includesSub_eq_false_of_skipPat (by simp [quotedKey]) ?_
    unfold renderCatalogue
    refine skipPat_append (skipPat_append ?_ (skipPat_catBody hK es hpl hnot)) ?_
    · exact skipPat_of_quoteFree catHeader_quoteFree
    · exact skipPat_of_quoteFree catFooter_quoteFree
  unfold updateSignaturePositionInSourceCode
  rw [if_neg (by rw [hinc]; simp)]
  have hfoot : lastIdxSub "\x7d;".data catFooter = some 1 := by decide
  have hidx : lastIdxSub "\x7d;".data (renderCatalogue es) =
      some ((catHeader ++ catBody es).length + 1) := by
    unfold renderCatalogue
    exact lastIdxSub_append_some hfoot (catHeader ++ catBody es)
  have htake : (renderCatalogue es).take ((catHeader ++ catBody es).length + 1) =
      catHeader ++ catBody es ++ ['\n'] := by
    unfold renderCatalogue
    rw [take_append_len]
    rfl
  have hdrop : (renderCatalogue es).drop ((catHeader ++ catBody es).length + 1) =
      "\x7d;\n".data := by
    unfold renderCatalogue
    rw [drop_append_len]
    rfl
  simp only [hidx, htake, hdrop]
  obtain ⟨u, hu⟩ := catBody_ends hne
  have hshape : catHeader ++ catBody es ++ ['\n'] =
      (catHeader ++ u) ++ '\x7d' :: ['\n'] := by
    rw [hu]
    simp
  obtain ⟨v, hv⟩ := @trimJS_ends '\x7d' (by decide) (catHeader ++ u) ['\n'] (by decide)
  have hcomma : (!endsWithCh (trimJS (catHeader ++ catBody es ++ ['\n'])) '\x7b' &&
      !endsWithCh (trimJS (catHeader ++ catBody es ++ ['\n'])) ',') = true := by
    rw [hshape, hv, endsWithCh_append_single, endsWithCh_append_single]
    decide
  simp only [hcomma]
  simp [List.append_assoc]

lemma setEntry_keys (es : Catalogue) (k : Text) (p : SignaturePosition) :
    (setEntry es k p).map Prod.fst = es.map Prod.fst := by
  induction es with
  | nil => rfl
  | cons e t ih =>
      rcases e with ⟨k₀, p₀⟩
      unfold setEntry
      by_cases hk : k₀ = k
      · rw [if_pos hk]
        rfl
      · rw [if_neg hk]
        simp only [List.map_cons]
        rw [ih]

lemma assocLookup_setEntry_ne {es : Catalogue} {k k' : Text} {p : SignaturePosition}
    (h : k' ≠ k) : assocLookup (setEntry es k p) k' = assocLookup es k' := by
  induction es with
  | nil => rfl
  | cons e t ih =>
      rcases e with ⟨k₀, p₀⟩
      unfold setEntry
      by_cases hk : k₀ = k
      · rw [if_pos hk]
        unfold assocLookup
        subst hk
        rw [if_neg (fun hc => h hc.symm), if_neg (fun hc => h hc.symm)]
      · rw [if_neg hk]
        unfold assocLookup
        by_cases hk' : k₀ = k'
        · rw [if_pos hk', if_pos hk']
        · rw [if_neg hk', if_neg hk']
          exact ih

lemma assocLookup_none_keys {es : Catalogue} {k : Text}
    (h : assocLookup es k = none) : ∀ e ∈ es, e.1 ≠ k := by
  induction es with
  | nil => intro e he; simp at he
  | cons e₀ t ih =>
      intro e he
      rcases e₀ with ⟨k₀, p₀⟩
      unfold assocLookup at h
      by_cases hk : k₀ = k
      · rw [if_pos hk] at h
        exact absurd h (by simp)
      · rw [if_neg hk] at h
        rcases List.mem_cons.mp he with rfl | he'
        · exact hk
        · exact ih h e he'

/-- `blockOf` on a catalogue text followed by anything: the present
key's block is found, whatever comes after the body. -/
lemma blockOf_catText_present {K' : Text} (hK' : PlainKey K') {es : Catalogue}
    {pk' : SignaturePosition} (hpl : ∀ e ∈ es, PlainKey e.1)
    (hnd : (es.map Prod.fst).Nodup) (hv : assocLookup es K' = some pk')
    (X : Text) :
    blockOf K' ((catHeader ++ catBody es) ++ X) = some (newPositionString K' pk') := by
  obtain ⟨pre, post, hpre, hpost, hrender⟩ := catBody_present hK' es hpl hnd pk' hv
  have hbody : catBody es = pre ++ newPositionString K' pk' ++ post := by
    have := hrender pk'
    rwa [setEntry_eq_self hv] at this
  rw [hbody]
  rw [show (catHeader ++ (pre ++ newPositionString K' pk' ++ post)) ++ X =
    (catHeader ++ pre) ++ newPositionString K' pk' ++ (post ++ X) from by
      simp [List.append_assoc]]
  exact blockOf_present_general
    (skipText_append (skipText_of_quoteFree catHeader_quoteFree) hpre) pk'

/-!
Agreement of the two matcher models on literal keys: a key whose
characters are word characters or hyphens contains no regex
metacharacter, so the unescaped interpolation matches exactly the
literal string.
-/

lemma literalKey_plain {k : Text} (hk : LiteralKey k) : PlainKey k := by
  refine ⟨hk.1, fun c hc => ?_⟩
  rcases hk.2 c hc with h | h | h
  · refine ⟨?_, ?_, ?_, ?_, ?_⟩ <;>
      (intro he; rw [he] at h; exact absurd h (by decide))
  · subst h; decide
  · subst h; decide

lemma literalKey_noDot {k : Text} (hk : LiteralKey k) : ∀ c ∈ k, c ≠ '.' := by
  intro c hc
  rcases hk.2 c hc with h | h | h
  · intro he; rw [he] at h; exact absurd h (by decide)
  · subst h; decide
  · subst h; decide

lemma quotedColon_noDot {k : Text} (hk : ∀ c ∈ k, c ≠ '.') :
    ∀ c ∈ quotedColon k, c ≠ '.' := by
  intro c hc
  unfold quotedColon at hc
  rcases List.mem_cons.mp hc with rfl | hc'
  · decide
  · rcases List.mem_append.mp hc' with h | h
    · exact hk c h
    · rcases List.mem_cons.mp h with rfl | h2
      · decide
      · rcases List.mem_cons.mp h2 with rfl | h3
        · decide
        · exact absurd h3 (List.not_mem_nil c)

lemma matchKeyChars_literal : ∀ (p : Text), (∀ c ∈ p, c ≠ '.') → ∀ s,
    matchKeyChars p s =
      if p.isPrefixOf s then some (p, s.drop p.length) else none := by
  intro p
  induction p with
  | nil =>
      intro _ s
      simp [matchKeyChars, List.isPrefixOf]
  | cons pc ps ih =>
      intro hp s
      have hd : (pc == '.') = false :=
        beq_eq_false_iff_ne.mpr (hp pc (List.mem_cons_self _ _))
      have hps : ∀ c ∈ ps, c ≠ '.' := fun d hd2 => hp d (List.mem_cons_of_mem _ hd2)
      cases s with
      | nil => simp [matchKeyChars, List.isPrefixOf]
      | cons c t =>
          have hrc : regexCharMatches pc c = (pc == c) := by
            unfold regexCharMatches
            rw [hd]
            simp
          unfold matchKeyChars
          rw [hrc, ih hps t, List.isPrefixOf_cons₂]
          cases hbc : pc == c with
          | false => simp
          | true =>
              have hce : pc = c := eq_of_beq hbc
              subst hce
              cases hpre : List.isPrefixOf ps t with
              | false => simp [hpre]
              | true => simp [hpre]

lemma matchAtRegex_eq {k : Text} (hk : ∀ c ∈ k, c ≠ '.') (s : Text) :
    matchAtRegex k s = matchAt k s := by
  unfold matchAtRegex matchAt
  rw [matchKeyChars_literal (quotedColon k) (quotedColon_noDot hk) s]
  cases hpre : (quotedColon k).isPrefixOf s with
  | true => simp [hpre]
  | false => simp [hpre]

lemma findBlockRegex_eq {k : Text} (hk : ∀ c ∈ k, c ≠ '.') :
    ∀ s, findBlockRegex k s = findBlock k s := by
  intro s
  induction s with
  | nil =>
      unfold findBlockRegex findBlock
      rw [matchAtRegex_eq hk]
  | cons c t ih =>
      unfold findBlockRegex findBlock
      rw [matchAtRegex_eq hk, ih]

lemma blockOfRegex_eq {k : Text} (hk : ∀ c ∈ k, c ≠ '.') (s : Text) :
    blockOfRegex k s = blockOf k s := by
  unfold blockOfRegex blockOf
  rw [findBlockRegex_eq hk]

lemma replaceBlocksAuxRegex_eq {k : Text} (hk : ∀ c ∈ k, c ≠ '.') (nb : Text) :
    ∀ fuel s, replaceBlocksAuxRegex k nb fuel s = replaceBlocksAux k nb fuel s := by
  intro fuel
  induction fuel with
  | zero => intro s; rfl
  | succ f ih =>
      intro s
      unfold replaceBlocksAuxRegex replaceBlocksAux
      rw [findBlockRegex_eq hk]
      rcases hfb : findBlock k s with _ | ⟨p, m, r⟩
      · rfl
      · simp only [ih]

lemma replaceBlocksRegex_eq {k : Text} (hk : ∀ c ∈ k, c ≠ '.') (nb s : Text) :
    replaceBlocksRegex k nb s = replaceBlocks k nb s := by
  unfold replaceBlocksRegex replaceBlocks
  exact replaceBlocksAuxRegex_eq hk nb (s.length + 1) s

lemma updateSourceCodeRegex_eq {k : Text} (hk : ∀ c ∈ k, c ≠ '.')
    (p : SignaturePosition) (s : Text) :
    updateSourceCodeRegex k p s = updateSignaturePositionInSourceCode k p s := by
  unfold updateSourceCodeRegex updateSignaturePositionInSourceCode
  simp only [replaceBlocksRegex_eq hk]

/-!
Claim theorems.
-/

/-- Counterexample for C7: the key is interpolated into the block
regex unescaped, so writing `a.b` (a key the catalogue holds) also
matches and overwrites the block of the distinct key `axb` — `.`
matches `x`.  Afterwards `axb`'s block is gone (its parse changes from
found to not-found), and the file differs from the rendering with only
the `a.b` entry changed: content outside the written key's block is not
byte-identical. -/
theorem claim_C7_counterexample :
    includesSub (quotedKey "a.b".data) (renderCatalogue dotKeyCatalogue) = true ∧
    blockOfRegex "axb".data (renderCatalogue dotKeyCatalogue) =
      some (newPositionString "axb".data ⟨2, 2, 2, 2, some 1⟩) ∧
    blockOfRegex "axb".data
        (updateSourceCodeRegex "a.b".data ⟨9, 9, 9, 9, some 1⟩
          (renderCatalogue dotKeyCatalogue)) = none ∧
    updateSourceCodeRegex "a.b".data ⟨9, 9, 9, 9, some 1⟩
        (renderCatalogue dotKeyCatalogue) ≠
      renderCatalogue (setEntry dotKeyCatalogue "a.b".data ⟨9, 9, 9, 9, some 1⟩) := by
  refine ⟨by decide, by decide, by decide, by decide⟩

/-- Claim C7, amended: non-interference holds for literal keys — keys
of word characters and hyphens, which is every key the repository
uses, and on which the unescaped regex interpolation matches exactly
the key's own block.  On a canonically rendered catalogue with
distinct literal keys, writing key K leaves the parsed block of every
other key K' unchanged; replacing an existing key yields exactly the
rendering with that one entry's value changed, and a new key is
inserted as one contiguous span before the closing `};`.  For a key
with a regex metacharacter the property fails (see the
counterexample). -/
theorem claim_C7_amended (es : Catalogue) (K K' : Text)
    (p pk' : SignaturePosition)
    (hpl : ∀ e ∈ es, LiteralKey e.1) (hK : LiteralKey K) (hK' : LiteralKey K')
    (hnd : (es.map Prod.fst).Nodup) (hne : K' ≠ K)
    (hv : assocLookup es K' = some pk') :
    blockOfRegex K' (updateSourceCodeRegex K p (renderCatalogue es)) =
      blockOfRegex K' (renderCatalogue es) ∧
    blockOfRegex K' (renderCatalogue es) = some (newPositionString K' pk') ∧
    ((assocLookup es K).isSome = true →
      updateSourceCodeRegex K p (renderCatalogue es) =
        renderCatalogue (setEntry es K p)) ∧
    (assocLookup es K = none →
      updateSourceCodeRegex K p (renderCatalogue es) =
        (catHeader ++ catBody es ++ ['\n']) ++ [','] ++ "\n  ".data ++
          newPositionString K p ++ ['\n'] ++ "\x7d;\n".data) := by
  have hKd := literalKey_noDot hK
  have hK'd := literalKey_noDot hK'
  have hKp := literalKey_plain hK
  have hK'p := literalKey_plain hK'
  have hplp : ∀ e ∈ es, PlainKey e.1 := fun e he => literalKey_plain (hpl e he)
  simp only [updateSourceCodeRegex_eq hKd, blockOfRegex_eq hK'd]
  have h2 : blockOf K' (renderCatalogue es) = some (newPositionString K' pk') := by
    unfold renderCatalogue
    rw [show catHeader ++ catBody es ++ catFooter =
      (catHeader ++ catBody es) ++ catFooter from by simp [List.append_assoc]]
    exact blockOf_catText_present hK'p hplp hnd hv catFooter
  have hrepl : (assocLookup es K).isSome = true →
      updateSignaturePositionInSourceCode K p (renderCatalogue es) =
        renderCatalogue (setEntry es K p) := by
    intro hsome
    rcases hpk : assocLookup es K with _ | pk
    · rw [hpk] at hsome; simp at hsome
    · exact updateSourceCode_renderCat_replace hKp hplp hnd hpk p
  have hins : assocLookup es K = none →
      updateSignaturePositionInSourceCode K p (renderCatalogue es) =
        (catHeader ++ catBody es ++ ['\n']) ++ [','] ++ "\n  ".data ++
          newPositionString K p ++ ['\n'] ++ "\x7d;\n".data := by
    intro hnone
    have hesne : es ≠ [] := by
      intro h
      rw [h] at hv
      simp [assocLookup] at hv
    exact updateSourceCode_renderCat_insert hKp hplp (assocLookup_none_keys hnone)
      hesne p
  refine ⟨?_, h2, hrepl, hins⟩
  rcases hpk : assocLookup es K with _ | pk
  · rw [hins hpk, h2]
    rw [show (catHeader ++ catBody es ++ ['\n']) ++ [','] ++ "\n  ".data ++
        newPositionString K p ++ ['\n'] ++ "\x7d;\n".data =
      (catHeader ++ catBody es) ++ (['\n'] ++ [','] ++ "\n  ".data ++
        newPositionString K p ++ ['\n'] ++ "\x7d;\n".data) from by
        simp [List.append_assoc]]
    exact blockOf_catText_present hK'p hplp hnd hv _
  · rw [hrepl (by rw [hpk]; rfl), h2]
    have hv' : assocLookup (setEntry es K p) K' = some pk' := by
      rw [assocLookup_setEntry_ne hne]
      exact hv
    have hpl' : ∀ e ∈ setEntry es K p, PlainKey e.1 := by
      intro e he
      have : e.1 ∈ (setEntry es K p).map Prod.fst := List.mem_map_of_mem _ he
      rw [setEntry_keys] at this
      rcases List.mem_map.mp this with ⟨e', he', heq⟩
      rw [← heq]
      exact hplp e' he'
    have hnd' : ((setEntry es K p).map Prod.fst).Nodup := by
      rw [setEntry_keys]
      exact hnd
    unfold renderCatalogue
    rw [show catHeader ++ catBody (setEntry es K p) ++ catFooter =
      (catHeader ++ catBody (setEntry es K p)) ++ catFooter from by
        simp [List.append_assoc]]
    exact blockOf_catText_present hK'p hpl' hnd' hv' catFooter

/-- Witness for the amended C7 at a concrete two-entry catalogue,
updating `absa-form` and observing `default` untouched. -/
theorem claim_C7_amended_witness :
    ((∀ e ∈ twoEntryCatalogue, LiteralKey e.1) ∧
     LiteralKey "absa-form".data ∧ LiteralKey "default".data ∧
     ((twoEntryCatalogue.map Prod.fst).Nodup) ∧
     "default".data ≠ "absa-form".data ∧
     assocLookup twoEntryCatalogue "default".data = some defaultPosition) ∧
    (blockOfRegex "default".data
        (updateSourceCodeRegex "absa-form".data samplePosition
          (renderCatalogue twoEntryCatalogue)) =
      blockOfRegex "default".data (renderCatalogue twoEntryCatalogue) ∧
    blockOfRegex "default".data (renderCatalogue twoEntryCatalogue) =
      some (newPositionString "default".data defaultPosition) ∧
    ((assocLookup twoEntryCatalogue "absa-form".data).isSome = true →
      updateSourceCodeRegex "absa-form".data samplePosition
          (renderCatalogue twoEntryCatalogue) =
        renderCatalogue (setEntry twoEntryCatalogue "absa-form".data samplePosition)) ∧
    (assocLookup twoEntryCatalogue "absa-form".data = none →
      updateSourceCodeRegex "absa-form".data samplePosition
          (renderCatalogue twoEntryCatalogue) =
        (catHeader ++ catBody twoEntryCatalogue ++ ['\n']) ++ [','] ++ "\n  ".data ++
          newPositionString "absa-form".data samplePosition ++ ['\n'] ++
          "\x7d;\n".data)) :=
  ⟨⟨by decide, by decide, by decide, by decide, by decide, by decide⟩,
    claim_C7_amended twoEntryCatalogue "absa-form".data "default".data
      samplePosition defaultPosition (by decide) (by decide) (by decide)
      (by decide) (by decide) (by decide)⟩

/-- Claim C9: storing a record whose input lacks the opacity field
materialises opacity 0.7, both in the in-memory catalogue and in the
rendered text block (which renders identically to an explicit 0.7). -/
theorem claim_C9_default_fill (cat : Catalogue) (k : Text) (x y w h : Int) :
    assocLookup (updateSignaturePosition cat k ⟨x, y, w, h, none⟩) k =
      some ⟨x, y, w, h, some (mkRat 7 10)⟩ ∧
    newPositionString k ⟨x, y, w, h, none⟩ =
      newPositionString k ⟨x, y, w, h, some (mkRat 7 10)⟩ := by
  constructor
  · rw [assocLookup_update_self]
    rfl
  · unfold newPositionString npsFields
    rw [show jsOr none (mkRat 7 10) = mkRat 7 10 from rfl, jsOr_seven]

/-- Claim C10: an input opacity of exactly 0 is treated as absent by
`position.opacity || 0.7`: the stored record and the rendered block are
identical to the no-opacity case, and the stored opacity is 0.7 — a
fully transparent position can never be stored. -/
theorem claim_C10_zero_opacity (cat : Catalogue) (k : Text) (x y w h : Int) :
    updateSignaturePosition cat k ⟨x, y, w, h, some 0⟩ =
      updateSignaturePosition cat k ⟨x, y, w, h, none⟩ ∧
    assocLookup (updateSignaturePosition cat k ⟨x, y, w, h, some 0⟩) k =
      some ⟨x, y, w, h, some (mkRat 7 10)⟩ ∧
    newPositionString k ⟨x, y, w, h, some 0⟩ =
      newPositionString k ⟨x, y, w, h, none⟩ := by
  have hz : jsOr (some 0) (mkRat 7 10) = jsOr none (mkRat 7 10) := by decide
  refine ⟨?_, ?_, ?_⟩
  · exact updateSignaturePosition_congr (by rw [hz]) cat k
  · rw [assocLookup_update_self]
    rw [show jsOr (some (0 : ℚ)) (mkRat 7 10) = mkRat 7 10 from by decide]
  · unfold newPositionString npsFields
    rw [hz]

/-- Claim C1 (code-bug evidence): the canonical block for `absa-form`
is present in the text and stores `x: 999`, the block regex finds it,
but the buggy field regex `/x:\\s*(\\d+)/` does not match inside it, so
the fresh read falls back to the in-memory record `x: 78` instead of
extracting the four integers from the text itself. -/
theorem claim_C1_extraction_never_succeeds :
    (blockOf "absa-form".data alteredAbsaText).isSome = true ∧
    (blockOf "absa-form".data alteredAbsaText).map
        (includesSub "x: 999".data) = some true ∧
    (blockOf "absa-form".data alteredAbsaText).map
        (buggyFieldCapture "x".data) = some none ∧
    getFreshSignaturePosition alteredAbsaText signaturePositions "absa-form".data =
      some (SignaturePosition.toJS ⟨78, 376, 200, 60, some 1⟩) := by
  exact ⟨by decide, by decide, by decide, by decide⟩

/-- Claim C4 counterexample: with the shipped catalogue rendered as the
configuration text, `getPosition("ABSACertificate.pdf")` does NOT
return the `absa-form` record — the read path applies no alias
resolution. -/
theorem claim_C4_counterexample :
    getFreshSignaturePosition (renderCatalogue signaturePositions) signaturePositions
        "ABSACertificate.pdf".data ≠
      some (SignaturePosition.toJS ⟨78, 376, 200, 60, some 1⟩) := by decide

/-- Claim C4 amended: the read path looks the identifier up directly
and falls back to the `default` record; the alias table maps
`ABSACertificate.pdf` to `absa-form` only inside the save handler's key
resolution, and the catalogue does hold the stated `absa-form`
record. -/
theorem claim_C4_amended :
    getFreshSignaturePosition (renderCatalogue signaturePositions) signaturePositions
        "ABSACertificate.pdf".data =
      some (SignaturePosition.toJS ⟨168, 722, 200, 30, some (mkRat 7 10)⟩) ∧
    resolveFormType "ABSACertificate.pdf".data none = "absa-form".data ∧
    assocLookup signaturePositions "absa-form".data =
      some ⟨78, 376, 200, 60, some 1⟩ := by
  exact ⟨by decide, by decide, by decide⟩

/-- Claim C5 counterexample: after a save of `x: 999` to `absa-form`
whose file write fails, a fresh read for `absa-form` no longer returns
the pre-update record `x: 78` — the in-memory half of the update had
already been applied. -/
theorem claim_C5_counterexample :
    getFreshSignaturePosition
        (handleSavePDFWriteFailure "x.pdf".data (some "absa-form".data)
          ⟨999, 376, 200, 60, some 1⟩
          (renderCatalogue [("absa-form".data, ⟨78, 376, 200, 60, some 1⟩)],
            signaturePositions)).1
        (handleSavePDFWriteFailure "x.pdf".data (some "absa-form".data)
          ⟨999, 376, 200, 60, some 1⟩
          (renderCatalogue [("absa-form".data, ⟨78, 376, 200, 60, some 1⟩)],
            signaturePositions)).2
        "absa-form".data ≠
      some (SignaturePosition.toJS ⟨78, 376, 200, 60, some 1⟩) := by decide

/-- Claim C5 amended: when the file write fails the handler reports a
failure and never reaches the verification read, and the file text is
untouched — but the operation is NOT free of partial state change: the
in-memory catalogue was updated before the write, so a subsequent
`getPosition` returns the new record, not the pre-update one. -/
theorem claim_C5_amended {text : Text} {cat : Catalogue} {pdfName K : Text}
    {req : SignaturePosition} (htext : '\\' ∉ text) :
    (handleSavePDFWriteFailure pdfName (some K) req (text, cat)).1 = text ∧
    getFreshSignaturePosition
        (handleSavePDFWriteFailure pdfName (some K) req (text, cat)).1
        (handleSavePDFWriteFailure pdfName (some K) req (text, cat)).2 K =
      some ⟨some req.x, some req.y, some req.width, some req.height,
        some (mkRat 7 10)⟩ := by
  refine ⟨rfl, ?_⟩
  rw [save_write_failure_state]
  rw [getFresh_fallback htext, getSignaturePosition_update_self, jsOr_seven]
  rfl

/-- Witness for the amended C5 statement at a concrete store. -/
theorem claim_C5_amended_witness :
    ('\\' ∉ renderCatalogue [("absa-form".data, ⟨78, 376, 200, 60, some 1⟩)]) ∧
    ((handleSavePDFWriteFailure "x.pdf".data (some "absa-form".data)
        ⟨999, 376, 200, 60, some 1⟩
        (renderCatalogue [("absa-form".data, ⟨78, 376, 200, 60, some 1⟩)],
          signaturePositions)).1 =
      renderCatalogue [("absa-form".data, ⟨78, 376, 200, 60, some 1⟩)] ∧
    getFreshSignaturePosition
        (handleSavePDFWriteFailure "x.pdf".data (some "absa-form".data)
          ⟨999, 376, 200, 60, some 1⟩
          (renderCatalogue [("absa-form".data, ⟨78, 376, 200, 60, some 1⟩)],
            signaturePositions)).1
        (handleSavePDFWriteFailure "x.pdf".data (some "absa-form".data)
          ⟨999, 376, 200, 60, some 1⟩
          (renderCatalogue [("absa-form".data, ⟨78, 376, 200, 60, some 1⟩)],
            signaturePositions)).2
        "absa-form".data =
      some ⟨some 999, some 376, some 200, some 60, some (mkRat 7 10)⟩) :=
  ⟨by decide, claim_C5_amended (by decide)⟩

/-- Claim C8: for a key absent from the catalogue — no block in the
text, no entry in memory — `getPosition` does not fail but returns the
same result as `getPosition("default")`. -/
theorem claim_C8_fallback {text : Text} {cat : Catalogue} {k : Text}
    (htext : '\\' ∉ text) (hfb : findBlock k text = none)
    (hcat : assocLookup cat k = none) :
    getFreshSignaturePosition text cat k =
      getFreshSignaturePosition text cat "default".data := by
  rw [getFresh_fallback htext, getFresh_fallback htext]
  unfold getSignaturePosition
  rw [hcat]
  rcases h : assocLookup cat "default".data with _ | v <;> rfl

/-- Witness for C8 at the rendered default-only catalogue. -/
theorem claim_C8_fallback_witness :
    ('\\' ∉ renderCatalogue [("default".data, ⟨168, 722, 200, 30, some (mkRat 7 10)⟩)] ∧
     findBlock "nonexistent-key".data
       (renderCatalogue [("default".data, ⟨168, 722, 200, 30, some (mkRat 7 10)⟩)]) =
       none ∧
     assocLookup signaturePositions "nonexistent-key".data = none) ∧
    getFreshSignaturePosition
        (renderCatalogue [("default".data, ⟨168, 722, 200, 30, some (mkRat 7 10)⟩)])
        signaturePositions "nonexistent-key".data =
      getFreshSignaturePosition
        (renderCatalogue [("default".data, ⟨168, 722, 200, 30, some (mkRat 7 10)⟩)])
        signaturePositions "default".data :=
  ⟨⟨by decide, by decide, by decide⟩,
    claim_C8_fallback (by decide) (by decide) (by decide)⟩

/-- Counterexample for C3: on a text shaped like the shipped
`signaturePositions.ts` (catalogue literal followed by the file's
accessor functions), saving the new key `new-form` with opacity 0.5
(the spec's own Scenario C input) (i) reads back opacity 0.7, not the
supplied 0.5, and (ii) inserts the block AFTER the accessor functions —
the leading context of the new block contains `export function
updateSignaturePosition` — because the insertion point is the LAST
`};` in the file, which lies inside that function's body, not at the
catalogue's closing delimiter. -/
theorem claim_C3_counterexample :
    (handleSavePDFSignaturePosition "NewForm.pdf".data (some "new-form".data)
        sampleRequest (smallConfigText, signaturePositions)).toOption.map
      (fun r => (getFreshSignaturePosition r.2.1 r.2.2 "new-form".data,
        (findBlock "new-form".data r.2.1).map
          (fun x => includesSub "export function updateSignaturePosition".data x.1))) =
      some (some ⟨some 10, some 20, some 50, some 50, some (mkRat 7 10)⟩,
        some true) ∧
    sampleRequest.opacity = some (mkRat 1 2) ∧ mkRat 7 10 ≠ mkRat 1 2 := by
  refine ⟨by decide, by decide, by decide⟩

/-- Claim C3, amended: for a literal key (word characters and hyphens —
every key the repository uses, and the class on which the unescaped
regex interpolation is exactly literal), on a canonically rendered
catalogue (no code after the closing `};`), saving a key that is not
yet present succeeds and inserts one well-formed block,
comma-separated, immediately before the closing delimiter; the
unescaped-regex writer and the literal model agree here, and that
block is the one the regex reader finds — but the record read back
carries opacity 0.7 regardless of the supplied opacity (the handler
hard-codes it, and the read-back falls back to the in-memory
catalogue), and the insertion point is correct only because a pure
catalogue file ends in `};`: with trailing code the block lands at the
file's last `};` instead (see the counterexample). -/
theorem claim_C3_amended {es : Catalogue} {cat : Catalogue} {pdfName K : Text}
    {req old : SignaturePosition}
    (hK : LiteralKey K) (hpl : ∀ e ∈ es, LiteralKey e.1)
    (hnot : assocLookup es K = none) (hesne : es ≠ [])
    (hold : getSignaturePosition cat K = some old) :
    handleSavePDFSignaturePosition pdfName (some K) req (renderCatalogue es, cat) =
      .ok (⟨K, pdfName, ⟨req.x, req.y, req.width, req.height, some (mkRat 7 10)⟩,
            old.toJS, false, savePDFResponseKeys⟩,
        (updateSignaturePositionInSourceCode K
            ⟨req.x, req.y, req.width, req.height, some (mkRat 7 10)⟩
            (renderCatalogue es),
         updateSignaturePosition cat K
            ⟨req.x, req.y, req.width, req.height, some (mkRat 7 10)⟩)) ∧
    updateSourceCodeRegex K
        ⟨req.x, req.y, req.width, req.height, some (mkRat 7 10)⟩
        (renderCatalogue es) =
      updateSignaturePositionInSourceCode K
        ⟨req.x, req.y, req.width, req.height, some (mkRat 7 10)⟩
        (renderCatalogue es) ∧
    updateSignaturePositionInSourceCode K
        ⟨req.x, req.y, req.width, req.height, some (mkRat 7 10)⟩
        (renderCatalogue es) =
      (catHeader ++ catBody es ++ ['\n']) ++ [','] ++ "\n  ".data ++
        newPositionString K ⟨req.x, req.y, req.width, req.height, some (mkRat 7 10)⟩ ++
        ['\n'] ++ "\x7d;\n".data ∧
    blockOfRegex K (updateSourceCodeRegex K
        ⟨req.x, req.y, req.width, req.height, some (mkRat 7 10)⟩
        (renderCatalogue es)) =
      some (newPositionString K
        ⟨req.x, req.y, req.width, req.height, some (mkRat 7 10)⟩) ∧
    getFreshSignaturePosition
        (updateSignaturePositionInSourceCode K
          ⟨req.x, req.y, req.width, req.height, some (mkRat 7 10)⟩
          (renderCatalogue es))
        (updateSignaturePosition cat K
          ⟨req.x, req.y, req.width, req.height, some (mkRat 7 10)⟩) K =
      some (SignaturePosition.toJS
        ⟨req.x, req.y, req.width, req.height, some (mkRat 7 10)⟩) := by
  have hKp : PlainKey K := literalKey_plain hK
  have hplp : ∀ e ∈ es, PlainKey e.1 := fun e he => literalKey_plain (hpl e he)
  have hKd : ∀ c ∈ K, c ≠ '.' := literalKey_noDot hK
  have htext : '\\' ∉ renderCatalogue es := renderCatalogue_noBackslash hplp
  have hKnb : '\\' ∉ K := fun hc => ((hKp.2 _ hc).2.2.1) rfl
  obtain ⟨hok, hfresh⟩ := save_flow_ok htext hKnb hold
  have hnk := assocLookup_none_keys hnot
  have hins := updateSourceCode_renderCat_insert hKp hplp hnk hesne
    ⟨req.x, req.y, req.width, req.height, some (mkRat 7 10)⟩
  refine ⟨hok, updateSourceCodeRegex_eq hKd _ _, hins, ?_, hfresh⟩
  rw [blockOfRegex_eq hKd, updateSourceCodeRegex_eq hKd, hins]
  rw [show (catHeader ++ catBody es ++ ['\n']) ++ [','] ++ "\n  ".data ++
      newPositionString K ⟨req.x, req.y, req.width, req.height, some (mkRat 7 10)⟩ ++
      ['\n'] ++ "\x7d;\n".data =
    (catHeader ++ (catBody es ++ (['\n'] ++ [','] ++ "\n  ".data))) ++
      newPositionString K ⟨req.x, req.y, req.width, req.height, some (mkRat 7 10)⟩ ++
      (['\n'] ++ "\x7d;\n".data) from by simp [List.append_assoc]]
  exact blockOf_present_general
    (skipText_append (skipText_of_quoteFree catHeader_quoteFree)
      (skipText_append (skipText_catBody hKp es hplp hnk)
        (skipText_of_quoteFree (by decide))))
    ⟨req.x, req.y, req.width, req.height, some (mkRat 7 10)⟩

/-- Witness for the amended C3 at the spec's Scenario C input, over a
concrete two-entry catalogue. -/
theorem claim_C3_amended_witness :
    (LiteralKey "new-form".data ∧ (∀ e ∈ twoEntryCatalogue, LiteralKey e.1) ∧
     assocLookup twoEntryCatalogue "new-form".data = none ∧
     twoEntryCatalogue ≠ [] ∧
     getSignaturePosition signaturePositions "new-form".data =
       some defaultPosition) ∧
    (handleSavePDFSignaturePosition "NewForm.pdf".data (some "new-form".data)
        sampleRequest (renderCatalogue twoEntryCatalogue, signaturePositions) =
      .ok (⟨"new-form".data, "NewForm.pdf".data, ⟨10, 20, 50, 50, some (mkRat 7 10)⟩,
            defaultPosition.toJS, false, savePDFResponseKeys⟩,
        (updateSignaturePositionInSourceCode "new-form".data
            ⟨10, 20, 50, 50, some (mkRat 7 10)⟩ (renderCatalogue twoEntryCatalogue),
         updateSignaturePosition signaturePositions "new-form".data
            ⟨10, 20, 50, 50, some (mkRat 7 10)⟩)) ∧
    updateSourceCodeRegex "new-form".data
        ⟨10, 20, 50, 50, some (mkRat 7 10)⟩ (renderCatalogue twoEntryCatalogue) =
      updateSignaturePositionInSourceCode "new-form".data
        ⟨10, 20, 50, 50, some (mkRat 7 10)⟩ (renderCatalogue twoEntryCatalogue) ∧
    updateSignaturePositionInSourceCode "new-form".data
        ⟨10, 20, 50, 50, some (mkRat 7 10)⟩ (renderCatalogue twoEntryCatalogue) =
      (catHeader ++ catBody twoEntryCatalogue ++ ['\n']) ++ [','] ++ "\n  ".data ++
        newPositionString "new-form".data ⟨10, 20, 50, 50, some (mkRat 7 10)⟩ ++
        ['\n'] ++ "\x7d;\n".data ∧
    blockOfRegex "new-form".data (updateSourceCodeRegex "new-form".data
        ⟨10, 20, 50, 50, some (mkRat 7 10)⟩ (renderCatalogue twoEntryCatalogue)) =
      some (newPositionString "new-form".data ⟨10, 20, 50, 50, some (mkRat 7 10)⟩) ∧
    getFreshSignaturePosition
        (updateSignaturePositionInSourceCode "new-form".data
          ⟨10, 20, 50, 50, some (mkRat 7 10)⟩ (renderCatalogue twoEntryCatalogue))
        (updateSignaturePosition signaturePositions "new-form".data
          ⟨10, 20, 50, 50, some (mkRat 7 10)⟩) "new-form".data =
      some (SignaturePosition.toJS ⟨10, 20, 50, 50, some (mkRat 7 10)⟩)) :=
  ⟨⟨by decide, by decide, by decide, by decide, by decide⟩,
    claim_C3_amended (by decide) (by decide) (by decide) (by decide) (by decide)⟩

end BlakePapers
